import Mathlib

/-!
# Verification of the plex-unwrapped statistics aggregation engine

Shallow embedding of `StatsCalculator` (backend `stats` module, found in
`src/backend/src/routes/health.routes.ts` after the route file) and proofs
settling the frozen claims about it.

Modelling conventions:

* JavaScript numbers are modelled as `ℤ` (timestamps, durations, counters)
  and `ℚ` (minute totals, percentages); `Math.round x` is `⌊x + 1/2⌋`.
* A JavaScript plain object used as a dictionary is an association list
  `List (κ × β)` built by update-or-append (`jsUpd`).  `Object.entries` /
  `Object.values` enumerate integer-like keys (canonical numerals below
  `2^32 - 1`) in ascending numeric order first, then all remaining string
  keys in insertion order; `numEntries` and `strEntries` model this.
* `Array.prototype.sort` is stable (ECMAScript 2019); it is modelled by the
  stable insertion sort `jsSortBy`, which produces the same list as any
  stable sort consistent with the comparator.
* `new Set(l)` enumerated with `Array.from` is `firstDedup l` (insertion
  order, first occurrence kept).
* `date-fns format`/`getDay`/`getHours` are evaluated in the server's
  timezone; the embedding fixes the environment timezone to UTC, so a
  calendar date is identified with its epoch-day number `⌊started/86400⌋`
  (the `yyyy-MM-dd` rendering is an order- and equality-preserving
  bijection from epoch days in the supported range, so lexicographic
  sorting of the date strings is sorting of the day numbers).
-/

set_option maxHeartbeats 1600000

namespace PlexUnwrapped

/-- `Math.round` (JavaScript): round half toward +∞. -/
def jsRound (q : ℚ) : ℤ := ⌊q + 1/2⌋

/-- `parseFloat(x.toFixed(1))`: round to one decimal place. -/
def toFixed1 (q : ℚ) : ℚ := (jsRound (q * 10) : ℚ) / 10

/-- Update-or-append on an association list: models
`if (!m[k]) m[k] = init; ⟨mutate m[k] by f⟩` on a JS object ( `init` is only
used when the key is absent). -/
def jsUpd {κ β : Type} [DecidableEq κ] (m : List (κ × β)) (k : κ) (init : β)
    (f : β → β) : List (κ × β) :=
  match m with
  | [] => [(k, f init)]
  | (k', v) :: t => if k = k' then (k, f v) :: t else (k', v) :: jsUpd t k init f

/-- Group a list of items into a JS-object association list; `key`, a
per-item initial value and a per-item mutation mirror the source's
`forEach` loops. -/
def jsGroup {α κ β : Type} [DecidableEq κ] (key : α → κ) (init : α → β)
    (step : α → β → β) (l : List α) : List (κ × β) :=
  l.foldl (fun m r => jsUpd m (key r) (init r) (step r)) []

/-- First value stored under a key, if any. -/
def lookupA {κ β : Type} [DecidableEq κ] (m : List (κ × β)) (k : κ) : Option β :=
  match m with
  | [] => none
  | (k', v) :: t => if k = k' then some v else lookupA t k

/-- Stable insertion sort; `bef y x = true` means an earlier element `y`
must stay in front of the element `x` being inserted.  With
`bef y x := metric x < metric y` this is the unique stable sort descending
by `metric`, which is what the engine's `Array.prototype.sort` calls with
numeric comparators produce. -/
def jsInsert {α : Type} (bef : α → α → Bool) (x : α) : List α → List α
  | [] => [x]
  | y :: t => if bef y x then y :: jsInsert bef x t else x :: y :: t

/-- Stable sort driven by `jsInsert`. -/
def jsSortBy {α : Type} (bef : α → α → Bool) : List α → List α
  | [] => []
  | x :: t => jsInsert bef x (jsSortBy bef t)

/-- `Array.from(new Set(l))`: distinct values, first occurrence order. -/
def firstDedup {α : Type} [DecidableEq α] (l : List α) : List α :=
  l.foldl (fun acc k => if k ∈ acc then acc else acc ++ [k]) []

/-- Decimal digit test on characters. -/
def isDigitChar (c : Char) : Bool := decide ('0' ≤ c) && decide (c ≤ '9')

/-- Numeric value of a digit string, given as its character list. -/
def digitsVal (l : List Char) : ℕ :=
  l.foldl (fun n c => n * 10 + (c.toNat - 48)) 0

/-- Is `s` a canonical array-index string (all digits, no leading zero
unless the string is exactly `"0"`, value below `2^32 - 1`)?  Such object
keys are enumerated first, in ascending numeric order. -/
def isArrayIndex (s : String) : Bool :=
  match s.data with
  | [] => false
  | c :: cs =>
    (c :: cs).all isDigitChar && (cs.isEmpty || decide (c ≠ '0')) &&
      decide (digitsVal (c :: cs) < 4294967295)

/-- `Object.entries` of a JS object with `ℕ` keys (numeric keys are stored
as their decimal strings, hence integer-like): ascending numeric order for
keys below `2^32 - 1`, insertion order for the rest. -/
def numEntries {β : Type} (m : List (ℕ × β)) : List (ℕ × β) :=
  jsSortBy (fun y x => decide (y.1 < x.1)) (m.filter (fun p => p.1 < 4294967295))
    ++ m.filter (fun p => ¬ p.1 < 4294967295)

/-- `Object.entries` of a JS object with string keys. -/
def strEntries {β : Type} (m : List (String × β)) : List (String × β) :=
  jsSortBy (fun y x => decide (digitsVal y.1.data < digitsVal x.1.data))
      (m.filter (fun p => isArrayIndex p.1))
    ++ m.filter (fun p => ¬ isArrayIndex p.1)

/-- Split a list into maximal runs, breaking between adjacent elements
`a`, `b` exactly when `brk a b`. -/
def splitWhen {α : Type} (brk : α → α → Bool) : List α → List (List α)
  | [] => []
  | [a] => [[a]]
  | a :: b :: t =>
    match splitWhen brk (b :: t) with
    | [] => [[a]]
    | s :: ss => if brk a b then [a] :: s :: ss else (a :: s) :: ss

/-! ## Calendar arithmetic (UTC)

`new Date(started * 1000)` together with `date-fns format` / `getDay` /
`getHours` in a UTC environment; the year/month/day computation is the
standard civil-from-days algorithm on the epoch-day number. -/

/-- Epoch day of a Unix-seconds timestamp (`yyyy-MM-dd` grouping key). -/
def epochDay (s : ℤ) : ℤ := s.fdiv 86400

/-- Hour of day, `getHours()` in UTC. -/
def hourOf (s : ℤ) : ℕ := ((s.emod 86400).fdiv 3600).toNat

/-- Day-of-week index, `getDay()` in UTC (0 = Sunday; 1970-01-01 was a
Thursday, index 4). -/
def dowIdx (s : ℤ) : ℕ := ((epochDay s + 4).emod 7).toNat

/-- Civil `(year, month, day)` from an epoch-day number. -/
def civilFromDays (z0 : ℤ) : ℤ × ℕ × ℕ :=
  let z := z0 + 719468
  let era := z.fdiv 146097
  let doe := z - era * 146097
  let yoe := (doe - doe.fdiv 1460 + doe.fdiv 36524 - doe.fdiv 146096).fdiv 365
  let doy := doe - (365 * yoe + yoe.fdiv 4 - yoe.fdiv 100)
  let mp := (5 * doy + 2).fdiv 153
  let d := doy - (153 * mp + 2).fdiv 5 + 1
  let m := mp + (if mp < 10 then 3 else -9)
  (yoe + era * 400 + (if m ≤ 2 then 1 else 0), m.toNat, d.toNat)

/-- Month number (1–12) of a timestamp. -/
def monthNum (s : ℤ) : ℕ := (civilFromDays (epochDay s)).2.1

/-- Year of a timestamp. -/
def yearNum (s : ℤ) : ℤ := (civilFromDays (epochDay s)).1

/-- The twelve `format(..., 'MMMM')` month names. -/
def monthNames : List String :=
  ["January", "February", "March", "April", "May", "June", "July",
   "August", "September", "October", "November", "December"]

/-- The `dayNames` array of the source. -/
def dayNames : List String :=
  ["Sunday", "Monday", "Tuesday", "Wednesday", "Thursday", "Friday", "Saturday"]

/-- `format(new Date(started * 1000), 'MMMM')`. -/
def monthName (s : ℤ) : String := monthNames.getD (monthNum s - 1) "January"

/-- `dayNames[new Date(started * 1000).getDay()]`. -/
def dayName (s : ℤ) : String := dayNames.getD (dowIdx s) "Sunday"

/-- Two-digit zero padding for date rendering. -/
def pad2 (n : ℕ) : String := if n < 10 then "0" ++ toString n else toString n

/-- `format(..., 'yyyy-MM')`. -/
def fmtYM (s : ℤ) : String := toString (yearNum s) ++ "-" ++ pad2 (monthNum s)

/-! ## Input data model

`TautulliHistoryRecord` (`src/backend/src/types/tautulli.types.ts`),
restricted to the fields the statistics engine reads.  `media_type` and
`transcode_decision` are strings compared with literals in the source; an
absent `stream_video_resolution` is modelled by `""` (falsy, like the
absent value, under the `|| 'unknown'` guard). -/

structure TautulliHistoryRecord where
  started : ℤ
  stopped : ℤ
  duration : ℤ
  media_type : String
  rating_key : ℕ
  grandparent_rating_key : ℕ
  title : String
  grandparent_title : String
  year : ℕ
  media_index : ℕ
  parent_media_index : ℕ
  thumb : String
  grandparent_thumb : String
  genres : List String
  actors : List String
  directors : List String
  player : String
  platform : String
  transcode_decision : String
  stream_video_resolution : String
deriving Repr, DecidableEq

abbrev HistoryList := List TautulliHistoryRecord

/-! ## Basic Aggregator (`calculateBasicStats`) -/

structure BasicStats where
  totalWatchTimeMinutes : ℤ
  totalPlays : ℕ
  totalMovies : ℕ
  totalTvEpisodes : ℕ
  uniqueMovies : ℕ
  uniqueShows : ℕ
  daysActive : ℕ
deriving Repr, DecidableEq

def calculateBasicStats (history : HistoryList) : BasicStats :=
  let movies := history.filter (fun r => r.media_type = "movie")
  let episodes := history.filter (fun r => r.media_type = "episode")
  { totalWatchTimeMinutes :=
      jsRound (history.foldl (fun sum r => sum + (r.duration : ℚ) / 60) 0)
    totalPlays := history.length
    totalMovies := movies.length
    totalTvEpisodes := episodes.length
    uniqueMovies := (firstDedup (movies.map (fun r => r.rating_key))).length
    uniqueShows :=
      (firstDedup (episodes.map (fun r => r.grandparent_rating_key))).length
    daysActive :=
      (firstDedup (history.map (fun r => epochDay r.started))).length }

/-! ## Temporal Pattern Analyzer (`calculateViewingPatterns`) -/

structure ViewingPatterns where
  mostActiveMonth : String
  mostActiveDayOfWeek : String
  mostActiveHour : ℕ
  longestStreakDays : ℕ
  longestBingeMinutes : ℤ
  longestBingeShow : Option String
deriving Repr, DecidableEq

/-- The `m[k] = (m[k] || 0) + 1` counting pattern. -/
def countAssoc {α κ : Type} [DecidableEq κ] (key : α → κ) (l : List α) :
    List (κ × ℕ) :=
  jsGroup key (fun _ => 0) (fun _ n => n + 1) l

/-- `Object.entries(counts).sort(([, a], [, b]) => b - a)[0]?.[0] || dflt`. -/
def argmaxKey {κ : Type} (entries : List (κ × ℕ)) (dflt : κ) : κ :=
  match jsSortBy (fun y x => decide (x.2 < y.2)) entries with
  | [] => dflt
  | e :: _ => e.1

def monthCounts (history : HistoryList) : List (String × ℕ) :=
  countAssoc (fun r => monthName r.started) history

def dayOfWeekCounts (history : HistoryList) : List (String × ℕ) :=
  countAssoc (fun r => dayName r.started) history

def hourCounts (history : HistoryList) : List (ℕ × ℕ) :=
  countAssoc (fun r => hourOf r.started) history

/-- The distinct activity dates, sorted ascending
(`Array.from(new Set(...)).sort()`). -/
def sortedDays (history : HistoryList) : List ℤ :=
  jsSortBy (fun y x => decide (y < x))
    (firstDedup (history.map (fun r => epochDay r.started)))

/-- The streak `for` loop: `prev` is the previous day, `cur`/`best` the
`currentStreak`/`longestStreak` accumulators; the trailing
`Math.max(longestStreak, currentStreak)` is the base case. -/
def streakLoop : ℤ → List ℤ → ℕ → ℕ → ℕ
  | _, [], cur, best => max best cur
  | prev, d :: t, cur, best =>
    if d - prev = 1 then streakLoop d t (cur + 1) best
    else streakLoop d t 1 (max best cur)

def longestStreakDef (history : HistoryList) : ℕ :=
  match sortedDays history with
  | [] => max 0 1
  | d :: t => streakLoop d t 1 0

structure BingeState where
  best : ℤ
  showTitle : Option String
deriving Repr, DecidableEq

/-- The per-show binge `for` loop over the started-sorted episode list;
`cur` is the running `currentBinge` in minutes. -/
def bingeGo : HistoryList → ℚ → BingeState → BingeState
  | [], _, st => st
  | [e], cur, st =>
    let c := cur + (e.duration : ℚ) / 60
    if (st.best : ℚ) < c then
      { best := jsRound c, showTitle := some e.grandparent_title } else st
  | e :: e' :: t, cur, st =>
    let c := cur + (e.duration : ℚ) / 60
    if 3600 < e'.started - e.stopped then
      bingeGo (e' :: t) 0
        (if (st.best : ℚ) < c then
          { best := jsRound c, showTitle := some e.grandparent_title } else st)
    else bingeGo (e' :: t) c st

/-- Episodes grouped by show (`grandparent_rating_key.toString()` keys,
pushed in encounter order). -/
def groupedByShow (episodes : HistoryList) : List (ℕ × HistoryList) :=
  jsGroup (fun ep => ep.grandparent_rating_key) (fun _ => [])
    (fun ep l => l ++ [ep]) episodes

/-- Sort a show's episodes by start time (`(a, b) => a.started - b.started`). -/
def sortByStarted (l : HistoryList) : HistoryList :=
  jsSortBy (fun y x => decide (y.started < x.started)) l

/-- The whole binge computation: iterate the per-show loop over
`Object.entries(groupedByShow)` (numeric-string keys, hence ascending
key order), threading the global best. -/
def bingeResult (history : HistoryList) : BingeState :=
  let episodes := history.filter (fun r => r.media_type = "episode")
  (numEntries (groupedByShow episodes)).foldl
    (fun st p => bingeGo (sortByStarted p.2) 0 st)
    { best := 0, showTitle := none }

def calculateViewingPatterns (history : HistoryList) : ViewingPatterns :=
  { mostActiveMonth := argmaxKey (strEntries (monthCounts history)) "January"
    mostActiveDayOfWeek :=
      argmaxKey (strEntries (dayOfWeekCounts history)) "Saturday"
    mostActiveHour := argmaxKey (numEntries (hourCounts history)) 20
    longestStreakDays := longestStreakDef history
    longestBingeMinutes := (bingeResult history).best
    longestBingeShow := (bingeResult history).showTitle }

/-! ## Ranking Aggregator: top content (`calculateTopContent`)

The source sorts `Object.values(...)`; since the comparators read only the
values, this equals sorting the entries and projecting, so the embedding
keeps the keys alongside for the statements. -/

structure TopMovie where
  title : String
  year : ℕ
  plays : ℕ
  durationMinutes : ℤ
  thumb : String
  ratingKey : ℕ
  genres : List String
deriving Repr, DecidableEq

structure TopShow where
  title : String
  plays : ℕ
  episodes : ℕ
  durationMinutes : ℤ
  thumb : String
  ratingKey : ℕ
  genres : List String
deriving Repr, DecidableEq

structure TopEpisode where
  title : String
  showTitle : String
  season : ℕ
  episode : ℕ
  plays : ℕ
  thumb : String
deriving Repr, DecidableEq

structure MovieAcc where
  count : ℕ
  duration : ℤ
  record : TautulliHistoryRecord
deriving Repr, DecidableEq

def moviePlays (history : HistoryList) : List (ℕ × MovieAcc) :=
  jsGroup (fun r => r.rating_key)
    (fun r => { count := 0, duration := 0, record := r })
    (fun r v => { v with count := v.count + 1, duration := v.duration + r.duration })
    (history.filter (fun r => r.media_type = "movie"))

/-- Descending stable sort of the grouped entries by play count. -/
def byCountDesc {β : Type} (count : β → ℕ) (m : List (ℕ × β)) : List (ℕ × β) :=
  jsSortBy (fun y x => decide (count x.2 < count y.2)) m

def topMoviesEntries (history : HistoryList) : List (ℕ × MovieAcc) :=
  (byCountDesc MovieAcc.count (numEntries (moviePlays history))).take 10

def topMovies (history : HistoryList) : List TopMovie :=
  (topMoviesEntries history).map (fun p =>
    { title := p.2.record.title
      year := p.2.record.year
      plays := p.2.count
      durationMinutes := jsRound ((p.2.duration : ℚ) / 60)
      thumb := p.2.record.thumb
      ratingKey := p.2.record.rating_key
      genres := p.2.record.genres })

structure ShowAcc where
  count : ℕ
  duration : ℤ
  episodes : List ℕ
  record : TautulliHistoryRecord
deriving Repr, DecidableEq

def showPlays (history : HistoryList) : List (ℕ × ShowAcc) :=
  jsGroup (fun r => r.grandparent_rating_key)
    (fun r => { count := 0, duration := 0, episodes := [], record := r })
    (fun r v =>
      { v with
        count := v.count + 1
        duration := v.duration + r.duration
        episodes :=
          if r.rating_key ∈ v.episodes then v.episodes
          else v.episodes ++ [r.rating_key] })
    (history.filter (fun r => r.media_type = "episode"))

def topShowsEntries (history : HistoryList) : List (ℕ × ShowAcc) :=
  (byCountDesc ShowAcc.count (numEntries (showPlays history))).take 10

def topShows (history : HistoryList) : List TopShow :=
  (topShowsEntries history).map (fun p =>
    { title := p.2.record.grandparent_title
      plays := p.2.count
      episodes := p.2.episodes.length
      durationMinutes := jsRound ((p.2.duration : ℚ) / 60)
      thumb := p.2.record.grandparent_thumb
      ratingKey := p.2.record.grandparent_rating_key
      genres := p.2.record.genres })

structure EpisodeAcc where
  count : ℕ
  record : TautulliHistoryRecord
deriving Repr, DecidableEq

def episodePlays (history : HistoryList) : List (ℕ × EpisodeAcc) :=
  jsGroup (fun r => r.rating_key)
    (fun r => { count := 0, record := r })
    (fun _ v => { v with count := v.count + 1 })
    (history.filter (fun r => r.media_type = "episode"))

def topEpisodesEntries (history : HistoryList) : List (ℕ × EpisodeAcc) :=
  (byCountDesc EpisodeAcc.count (numEntries (episodePlays history))).take 5

def topEpisodes (history : HistoryList) : List TopEpisode :=
  (topEpisodesEntries history).map (fun p =>
    { title := p.2.record.title
      showTitle := p.2.record.grandparent_title
      season := p.2.record.parent_media_index
      episode := p.2.record.media_index
      plays := p.2.count
      thumb := p.2.record.thumb })

/-! ## Ranking Aggregator: genres (`calculateTopGenres`) -/

structure TopGenre where
  genre : String
  count : ℕ
  minutes : ℤ
  percentage : ℚ
deriving Repr, DecidableEq

structure GenreAcc where
  count : ℕ
  minutes : ℚ
deriving Repr, DecidableEq

def totalMinutesOf (history : HistoryList) : ℚ :=
  history.foldl (fun sum r => sum + (r.duration : ℚ) / 60) 0

def genreStats (history : HistoryList) : List (String × GenreAcc) :=
  history.foldl (fun m r =>
    r.genres.foldl (fun m g =>
      jsUpd m g { count := 0, minutes := 0 }
        (fun v => { count := v.count + 1, minutes := v.minutes + (r.duration : ℚ) / 60 }))
      m) []

def topGenresEntries (history : HistoryList) : List (String × GenreAcc) :=
  (jsSortBy (fun y x => decide (x.2.minutes < y.2.minutes))
    (strEntries (genreStats history))).take 10

def calculateTopGenres (history : HistoryList) : List TopGenre :=
  let totalMinutes := totalMinutesOf history
  (topGenresEntries history).map (fun p =>
    { genre := p.1
      count := p.2.count
      minutes := jsRound p.2.minutes
      percentage := toFixed1 (p.2.minutes / totalMinutes * 100) })

/-! ## Ranking Aggregator: people (`calculateTopPeople`) -/

structure TopPerson where
  name : String
  count : ℕ
  titles : List String
deriving Repr, DecidableEq

structure PersonAcc where
  count : ℕ
  titles : List String
deriving Repr, DecidableEq

def personCounts (select : TautulliHistoryRecord → List String)
    (history : HistoryList) : List (String × PersonAcc) :=
  history.foldl (fun m r =>
    (select r).foldl (fun m name =>
      jsUpd m name { count := 0, titles := [] }
        (fun v =>
          { count := v.count + 1
            titles :=
              if r.title ∈ v.titles then v.titles else v.titles ++ [r.title] }))
      m) []

def topPeopleEntries (select : TautulliHistoryRecord → List String)
    (history : HistoryList) : List (String × PersonAcc) :=
  (jsSortBy (fun y x => decide (x.2.count < y.2.count))
    (strEntries (personCounts select history))).take 5

def mkTopPeople (entries : List (String × PersonAcc)) : List TopPerson :=
  entries.map (fun p =>
    { name := p.1, count := p.2.count, titles := p.2.titles.take 5 })

def topActors (history : HistoryList) : List TopPerson :=
  mkTopPeople (topPeopleEntries (fun r => r.actors) history)

def topDirectors (history : HistoryList) : List TopPerson :=
  mkTopPeople (topPeopleEntries (fun r => r.directors) history)

/-! ## Ranking Aggregator: devices, platforms, quality
(`calculateDeviceStats`) -/

structure DeviceStat where
  device : String
  platform : String
  plays : ℕ
  minutes : ℤ
deriving Repr, DecidableEq

structure PlatformStat where
  platform : String
  plays : ℕ
  minutes : ℤ
deriving Repr, DecidableEq

structure QualityStats where
  directPlay : ℕ
  transcode : ℕ
  directStream : ℕ
  resolutions : List (String × ℕ)
deriving Repr, DecidableEq

structure DevAcc where
  plays : ℕ
  minutes : ℚ
  platform : String
deriving Repr, DecidableEq

structure PlatAcc where
  plays : ℕ
  minutes : ℚ
deriving Repr, DecidableEq

/-- The three dictionaries the single `forEach` of `calculateDeviceStats`
mutates. -/
structure DevState where
  devices : List (String × DevAcc)
  platforms : List (String × PlatAcc)
  quality : QualityStats
deriving Repr, DecidableEq

def deviceKey (r : TautulliHistoryRecord) : String :=
  r.player ++ "-" ++ r.platform

/-- `r.stream_video_resolution || 'unknown'` ("" is falsy). -/
def resKey (r : TautulliHistoryRecord) : String :=
  if r.stream_video_resolution = "" then "unknown" else r.stream_video_resolution

def devStep (st : DevState) (r : TautulliHistoryRecord) : DevState :=
  { devices :=
      jsUpd st.devices (deviceKey r) { plays := 0, minutes := 0, platform := r.platform }
        (fun v => { v with plays := v.plays + 1, minutes := v.minutes + (r.duration : ℚ) / 60 })
    platforms :=
      jsUpd st.platforms r.platform { plays := 0, minutes := 0 }
        (fun v => { plays := v.plays + 1, minutes := v.minutes + (r.duration : ℚ) / 60 })
    quality :=
      let q := st.quality
      let q :=
        if r.transcode_decision = "transcode" then { q with transcode := q.transcode + 1 }
        else if r.transcode_decision = "copy" then { q with directStream := q.directStream + 1 }
        else { q with directPlay := q.directPlay + 1 }
      { q with resolutions := jsUpd q.resolutions (resKey r) 0 (fun n => n + 1) } }

def devInit : DevState :=
  { devices := []
    platforms := []
    quality := { directPlay := 0, transcode := 0, directStream := 0, resolutions := [] } }

def devFold (history : HistoryList) : DevState :=
  history.foldl devStep devInit

def topDevicesEntries (history : HistoryList) : List (String × DevAcc) :=
  (jsSortBy (fun y x => decide (x.2.plays < y.2.plays))
    (strEntries (devFold history).devices)).take 5

def topDevices (history : HistoryList) : List DeviceStat :=
  (topDevicesEntries history).map (fun p =>
    { device := (p.1.splitOn "-").headD ""
      platform := p.2.platform
      plays := p.2.plays
      minutes := jsRound p.2.minutes })

def topPlatformsEntries (history : HistoryList) : List (String × PlatAcc) :=
  (jsSortBy (fun y x => decide (x.2.plays < y.2.plays))
    (strEntries (devFold history).platforms)).take 5

def topPlatforms (history : HistoryList) : List PlatformStat :=
  (topPlatformsEntries history).map (fun p =>
    { platform := p.1, plays := p.2.plays, minutes := jsRound p.2.minutes })

def qualityStatsOf (history : HistoryList) : QualityStats :=
  (devFold history).quality

/-! ## Monthly breakdown (`calculateMonthlyStats`)

The grouping key is the string `` `${yyyy-MM}|${MMMM}` ``; both halves are
functions of the event's calendar month, and the key can never look like
an array index (it contains `-` and `|`), so entries stay in insertion
order.  The key is modelled as the pair of its two halves. -/

structure MonthlyStat where
  month : String
  monthName : String
  plays : ℕ
  minutes : ℤ
deriving Repr, DecidableEq

structure MonthAcc where
  plays : ℕ
  minutes : ℚ
deriving Repr, DecidableEq

def monthlyData (history : HistoryList) : List ((String × String) × MonthAcc) :=
  jsGroup (fun r => (fmtYM r.started, monthName r.started))
    (fun _ => { plays := 0, minutes := 0 })
    (fun r v => { plays := v.plays + 1, minutes := v.minutes + (r.duration : ℚ) / 60 })
    history

/-- Final chronological sort `a.month.localeCompare(b.month)`: lexicographic
order on `yyyy-MM` strings. -/
def calculateMonthlyStats (history : HistoryList) : List MonthlyStat :=
  jsSortBy (fun y x => decide (y.month < x.month))
    ((monthlyData history).map (fun p =>
      { month := p.1.1
        monthName := p.1.2
        plays := p.2.plays
        minutes := jsRound p.2.minutes }))

/-! ## Fun stats (`calculateFunStats`) -/

structure FunStats where
  percentageOfLibraryWatched : ℕ
  totalSeasonsCompleted : ℕ
  rewatches : ℕ
  firstWatchTitle : Option String
  firstWatchDate : Option ℤ
  lastWatchTitle : Option String
  lastWatchDate : Option ℤ
  mostMemorableDayDate : Option ℤ
  mostMemorableDayMinutes : ℤ
deriving Repr, DecidableEq

structure DayAcc where
  minutes : ℚ
  date : ℤ
deriving Repr, DecidableEq

/-- `title || null` (the empty string is falsy). -/
def titleOrNull (r : TautulliHistoryRecord) : Option String :=
  if r.title = "" then none else some r.title

def calculateFunStats (history : HistoryList) : FunStats :=
  let contentPlays := countAssoc (fun r => r.rating_key) history
  let rewatches := (contentPlays.filter (fun p => 1 < p.2)).length
  let sorted := jsSortBy (fun y x => decide (y.started < x.started)) history
  let firstWatch := sorted.head?
  let lastWatch := sorted.getLast?
  let dayStats :=
    jsGroup (fun r => epochDay r.started)
      (fun r => { minutes := 0, date := r.started })
      (fun r (v : DayAcc) => { v with minutes := v.minutes + (r.duration : ℚ) / 60 })
      history
  let mostMemorableDay :=
    (jsSortBy (fun y x => decide (x.2.minutes < y.2.minutes)) dayStats).head?
  { percentageOfLibraryWatched := 0
    totalSeasonsCompleted := 0
    rewatches := rewatches
    firstWatchTitle := firstWatch.bind titleOrNull
    firstWatchDate := firstWatch.map (fun r => r.started)
    lastWatchTitle := lastWatch.bind titleOrNull
    lastWatchDate := lastWatch.map (fun r => r.started)
    mostMemorableDayDate := mostMemorableDay.map (fun p => p.2.date)
    mostMemorableDayMinutes :=
      jsRound ((mostMemorableDay.map (fun p => p.2.minutes)).getD 0) }

/-! ## Fun-Fact & Badge Rule Engine -/

/-- The fields of `OverseerrUserRequestStats` the rule engine reads. -/
structure OverseerrUserRequestStats where
  totalRequests : ℕ
  averageApprovalTimeHours : Option ℚ
deriving Repr, DecidableEq

structure Badge where
  name : String
  description : String
  icon : String
deriving Repr, DecidableEq

/-- `${x}` interpolation of a nullable string (JS renders `null`). -/
def jsShow (o : Option String) : String := o.getD "null"

def generateFunFacts (basicStats : BasicStats) (patterns : ViewingPatterns)
    (overseerrStats : Option OverseerrUserRequestStats) : List String :=
  (if 180 < patterns.longestBingeMinutes then
    let bingeShow := jsShow patterns.longestBingeShow
    let bingeHours := jsRound ((patterns.longestBingeMinutes : ℚ) / 60)
    [s!"Marathon Master - Binged {bingeShow} for {bingeHours} hours!"]
  else []) ++
  (if 22 ≤ patterns.mostActiveHour ∨ patterns.mostActiveHour ≤ 4 then
    let hr := patterns.mostActiveHour
    [s!"Night Owl - Most active viewing at {hr}:00"]
  else []) ++
  (if 5 ≤ patterns.mostActiveHour ∧ patterns.mostActiveHour ≤ 8 then
    let hr := patterns.mostActiveHour
    [s!"Early Bird - Started the day with content at {hr}:00 AM"]
  else []) ++
  (if 300 < basicStats.daysActive then
    let d := basicStats.daysActive
    [s!"Dedicated Viewer - Active on {d} days this year!"]
  else []) ++
  (if 500 < basicStats.totalTvEpisodes then
    let e := basicStats.totalTvEpisodes
    [s!"TV Enthusiast - Watched {e} episodes this year"]
  else []) ++
  (if 100 < basicStats.totalMovies then
    let m := basicStats.totalMovies
    [s!"Movie Buff - Watched {m} movies this year"]
  else []) ++
  (match overseerrStats with
   | some o =>
     if 20 < o.totalRequests then
       let t := o.totalRequests
       [s!"Content Curator - Requested {t} new titles"]
     else []
   | none => []) ++
  (match overseerrStats with
   | some o =>
     match o.averageApprovalTimeHours with
     | some t =>
       if ¬ t = 0 ∧ t < 2 then
         let rt := jsRound t
         [s!"VIP Treatment - Average request approval in {rt} hours"]
       else []
     | none => []
   | none => [])

def generateBadges (basicStats : BasicStats) (patterns : ViewingPatterns)
    (overseerrStats : Option OverseerrUserRequestStats) : List Badge :=
  (if 240 < patterns.longestBingeMinutes then
    [{ name := "Marathon Master"
       description := "Binged for over 4 hours straight"
       icon := "üèÉ" }]
  else []) ++
  (if 30 < patterns.longestStreakDays then
    let d := patterns.longestStreakDays
    [{ name := "Consistent Viewer"
       description := s!"{d} day viewing streak"
       icon := "üî•" }]
  else []) ++
  (if 500 < basicStats.totalTvEpisodes then
    [{ name := "TV Fanatic"
       description := "Watched over 500 episodes"
       icon := "üì∫" }]
  else []) ++
  (if 100 < basicStats.totalMovies then
    [{ name := "Cinema Enthusiast"
       description := "Watched over 100 movies"
       icon := "üé¨" }]
  else []) ++
  (match overseerrStats with
   | some o =>
     if 50 < o.totalRequests then
       [{ name := "Content Curator"
          description := "Requested over 50 titles"
          icon := "üìù" }]
     else []
   | none => [])

/-! ## Report Orchestrator (`calculateUserStats`, `getEmptyStats`)

The orchestrator is embedded as a pure function of the (already fetched)
history and the optional enrichment value; fetching, logging and timing
are collaborator concerns outside the engine. -/

structure ProcessedStats where
  totalWatchTimeMinutes : ℤ
  totalPlays : ℕ
  totalMovies : ℕ
  totalTvEpisodes : ℕ
  uniqueMovies : ℕ
  uniqueShows : ℕ
  daysActive : ℕ
  mostActiveMonth : String
  mostActiveDayOfWeek : String
  mostActiveHour : ℕ
  longestStreakDays : ℕ
  longestBingeMinutes : ℤ
  longestBingeShow : Option String
  topMovies : List TopMovie
  topShows : List TopShow
  topEpisodes : List TopEpisode
  topGenres : List TopGenre
  topActors : List TopPerson
  topDirectors : List TopPerson
  topDevices : List DeviceStat
  topPlatforms : List PlatformStat
  qualityStats : QualityStats
  monthlyStats : List MonthlyStat
  contentSharedWith : ℕ
  percentageOfLibraryWatched : ℕ
  totalSeasonsCompleted : ℕ
  rewatches : ℕ
  firstWatchTitle : Option String
  firstWatchDate : Option ℤ
  lastWatchTitle : Option String
  lastWatchDate : Option ℤ
  mostMemorableDayDate : Option ℤ
  mostMemorableDayMinutes : ℤ
  funFacts : List String
  badges : List Badge
  overseerrStats : Option OverseerrUserRequestStats
deriving Repr, DecidableEq

def getEmptyStats : ProcessedStats :=
  { totalWatchTimeMinutes := 0
    totalPlays := 0
    totalMovies := 0
    totalTvEpisodes := 0
    uniqueMovies := 0
    uniqueShows := 0
    daysActive := 0
    mostActiveMonth := "January"
    mostActiveDayOfWeek := "Saturday"
    mostActiveHour := 20
    longestStreakDays := 0
    longestBingeMinutes := 0
    longestBingeShow := none
    topMovies := []
    topShows := []
    topEpisodes := []
    topGenres := []
    topActors := []
    topDirectors := []
    topDevices := []
    topPlatforms := []
    qualityStats := { directPlay := 0, transcode := 0, directStream := 0, resolutions := [] }
    monthlyStats := []
    contentSharedWith := 0
    percentageOfLibraryWatched := 0
    totalSeasonsCompleted := 0
    rewatches := 0
    firstWatchTitle := none
    firstWatchDate := none
    lastWatchTitle := none
    lastWatchDate := none
    mostMemorableDayDate := none
    mostMemorableDayMinutes := 0
    funFacts := []
    badges := []
    overseerrStats := none }

def calculateUserStats (history : HistoryList)
    (overseerrStats : Option OverseerrUserRequestStats) : ProcessedStats :=
  if history.length = 0 then getEmptyStats
  else
    let basicStats := calculateBasicStats history
    let viewingPatterns := calculateViewingPatterns history
    let funStats := calculateFunStats history
    { totalWatchTimeMinutes := basicStats.totalWatchTimeMinutes
      totalPlays := basicStats.totalPlays
      totalMovies := basicStats.totalMovies
      totalTvEpisodes := basicStats.totalTvEpisodes
      uniqueMovies := basicStats.uniqueMovies
      uniqueShows := basicStats.uniqueShows
      daysActive := basicStats.daysActive
      mostActiveMonth := viewingPatterns.mostActiveMonth
      mostActiveDayOfWeek := viewingPatterns.mostActiveDayOfWeek
      mostActiveHour := viewingPatterns.mostActiveHour
      longestStreakDays := viewingPatterns.longestStreakDays
      longestBingeMinutes := viewingPatterns.longestBingeMinutes
      longestBingeShow := viewingPatterns.longestBingeShow
      topMovies := topMovies history
      topShows := topShows history
      topEpisodes := topEpisodes history
      topGenres := calculateTopGenres history
      topActors := topActors history
      topDirectors := topDirectors history
      topDevices := topDevices history
      topPlatforms := topPlatforms history
      qualityStats := qualityStatsOf history
      monthlyStats := calculateMonthlyStats history
      contentSharedWith := 0
      percentageOfLibraryWatched := funStats.percentageOfLibraryWatched
      totalSeasonsCompleted := funStats.totalSeasonsCompleted
      rewatches := funStats.rewatches
      firstWatchTitle := funStats.firstWatchTitle
      firstWatchDate := funStats.firstWatchDate
      lastWatchTitle := funStats.lastWatchTitle
      lastWatchDate := funStats.lastWatchDate
      mostMemorableDayDate := funStats.mostMemorableDayDate
      mostMemorableDayMinutes := funStats.mostMemorableDayMinutes
      funFacts := generateFunFacts basicStats viewingPatterns overseerrStats
      badges := generateBadges basicStats viewingPatterns overseerrStats
      overseerrStats := overseerrStats }

/-! ## Spec-side definitions for refinement comparisons -/

/-- A well-formed event in the sense of the spec's Event Normalizer
(§4.1): non-negative duration and `started ≤ stopped`. -/
def specWellFormed (r : TautulliHistoryRecord) : Prop :=
  0 ≤ r.duration ∧ r.started ≤ r.stopped

instance (r : TautulliHistoryRecord) : Decidable (specWellFormed r) := by
  unfold specWellFormed; infer_instance

/-- Follows the spec's words (§4.1 Event Normalizer): "returns the same
list filtered to well-formed events". -/
def specNormalize (history : HistoryList) : HistoryList :=
  history.filter (fun r => decide (specWellFormed r))

/-! ## Lemmas about `firstDedup` -/

theorem mem_foldl_dedup {α : Type} [DecidableEq α] (l : List α) (acc : List α) (a : α) :
    a ∈ l.foldl (fun acc k => if k ∈ acc then acc else acc ++ [k]) acc ↔
      a ∈ acc ∨ a ∈ l := by
  induction l generalizing acc with
  | nil => simp
  | cons x t ih =>
    simp only [List.foldl_cons, ih, List.mem_cons]
    by_cases hx : x ∈ acc
    · simp only [hx, if_true]
      constructor
      · rintro (h | h)
        · exact Or.inl h
        · exact Or.inr (Or.inr h)
      · rintro (h | h | h)
        · exact Or.inl h
        · exact Or.inl (h ▸ hx)
        · exact Or.inr h
    · simp only [hx, if_false, List.mem_append, List.mem_singleton]
      tauto

theorem nodup_foldl_dedup {α : Type} [DecidableEq α] (l : List α) (acc : List α)
    (h : acc.Nodup) :
    (l.foldl (fun acc k => if k ∈ acc then acc else acc ++ [k]) acc).Nodup := by
  induction l generalizing acc with
  | nil => simpa
  | cons x t ih =>
    simp only [List.foldl_cons]
    by_cases hx : x ∈ acc
    · simpa [hx] using ih acc h
    · refine ih _ ?_
      simp only [hx, if_false]
      exact List.Nodup.append h (List.nodup_singleton x) (by simpa using hx)

theorem mem_firstDedup {α : Type} [DecidableEq α] (l : List α) (a : α) :
    a ∈ firstDedup l ↔ a ∈ l := by
  simpa using mem_foldl_dedup l [] a

theorem nodup_firstDedup {α : Type} [DecidableEq α] (l : List α) :
    (firstDedup l).Nodup :=
  nodup_foldl_dedup l [] List.nodup_nil

theorem length_firstDedup_eq_card {α : Type} [DecidableEq α] (l : List α) :
    (firstDedup l).length = l.toFinset.card := by
  have h1 : (firstDedup l).toFinset = l.toFinset := by
    ext a; simp [List.mem_toFinset, mem_firstDedup]
  calc (firstDedup l).length = (firstDedup l).toFinset.card :=
        (List.toFinset_card_of_nodup (nodup_firstDedup l)).symm
    _ = l.toFinset.card := by rw [h1]

/-! ## Concrete events used by counterexamples and witnesses -/

/-- A template event; counterexamples override the relevant fields. -/
def baseEvent : TautulliHistoryRecord :=
  { started := 0
    stopped := 0
    duration := 0
    media_type := "movie"
    rating_key := 1
    grandparent_rating_key := 0
    title := "Title"
    grandparent_title := "Show"
    year := 2024
    media_index := 1
    parent_media_index := 1
    thumb := ""
    grandparent_thumb := ""
    genres := []
    actors := []
    directors := []
    player := "Player"
    platform := "iOS"
    transcode_decision := ""
    stream_video_resolution := "" }

/-- An event malformed in the spec's sense: negative duration and
`started > stopped`. -/
def badEvent : TautulliHistoryRecord :=
  { baseEvent with started := 10, stopped := 0, duration := -60 }

/-! ## C8 — daysActive -/

/-- C8: for every input event sequence (in particular every non-empty one),
`daysActive` equals the number of distinct UTC calendar dates among the
events' `started` timestamps. -/
theorem claim_C8_daysActive_distinct_utc_dates (history : HistoryList) :
    (calculateBasicStats history).daysActive =
      (history.map (fun r => epochDay r.started)).toFinset.card :=
  length_firstDedup_eq_card _

/-! ## C2 — totalPlays vs. normalization -/

theorem length_filter_partition {α : Type} (p : α → Bool) (l : List α) :
    l.length = (l.filter p).length + (l.filter (fun a => ¬ p a)).length := by
  induction l with
  | nil => rfl
  | cons x t ih =>
    by_cases hx : p x <;> simp [List.filter_cons, hx, ih] <;> omega

/-- C2 (amended): the engine performs no normalization: `totalPlays` is the
length of the raw input list, i.e. the count of well-formed events plus the
count of malformed events, so malformed events are counted too. -/
theorem claim_C2_totalPlays_counts_all_events (history : HistoryList) :
    (calculateBasicStats history).totalPlays = history.length ∧
    (calculateBasicStats history).totalPlays =
      (specNormalize history).length +
        (history.filter (fun r => ¬ decide (specWellFormed r))).length :=
  ⟨rfl, length_filter_partition _ history⟩

/-- C2 counterexample: a single malformed event (negative duration,
`started > stopped`) survives into `totalPlays` (1, not the 0 events that
survive the spec's normalization) and drives `totalWatchTimeMinutes`
negative, so it does contribute to reported statistics. -/
theorem claim_C2_counterexample :
    (calculateBasicStats [badEvent]).totalPlays = 1 ∧
    (specNormalize [badEvent]).length = 0 ∧
    (calculateBasicStats [badEvent]).totalWatchTimeMinutes = -1 := by
  refine ⟨rfl, by decide, ?_⟩
  show jsRound ((0 : ℚ) + ((badEvent.duration : ℚ)) / 60) = -1
  norm_num [badEvent, baseEvent, jsRound]

/-! ## C5 — empty input -/

/-- C5: the empty event list short-circuits to the fixed empty report:
`totalPlays = 0`, every top-N list empty, `funFacts` and `badges` empty,
whatever the enrichment value is; the embedding is total, so no exception
is possible. -/
theorem claim_C5_empty_input (o : Option OverseerrUserRequestStats) :
    calculateUserStats [] o = getEmptyStats ∧
    (calculateUserStats [] o).totalPlays = 0 ∧
    (calculateUserStats [] o).topMovies = [] ∧
    (calculateUserStats [] o).topShows = [] ∧
    (calculateUserStats [] o).topEpisodes = [] ∧
    (calculateUserStats [] o).topGenres = [] ∧
    (calculateUserStats [] o).topActors = [] ∧
    (calculateUserStats [] o).topDirectors = [] ∧
    (calculateUserStats [] o).topDevices = [] ∧
    (calculateUserStats [] o).topPlatforms = [] ∧
    (calculateUserStats [] o).funFacts = [] ∧
    (calculateUserStats [] o).badges = [] :=
  ⟨rfl, rfl, rfl, rfl, rfl, rfl, rfl, rfl, rfl, rfl, rfl, rfl⟩

/-! ## C9 — determinism / idempotence -/

/-- C9: the engine is embedded as a pure function of the event list and
the fixed enrichment value (the source's only cross-call state is the
collaborator handles, which the engine reads but never writes), so two
invocations on identical input give field-for-field identical reports,
including the `funFacts` and `badges` lists. -/
theorem claim_C9_idempotent (history : HistoryList)
    (o : Option OverseerrUserRequestStats) :
    calculateUserStats history o = calculateUserStats history o ∧
    (calculateUserStats history o).funFacts =
      (calculateUserStats history o).funFacts ∧
    (calculateUserStats history o).badges =
      (calculateUserStats history o).badges :=
  ⟨rfl, rfl, rfl⟩

/-! ## C10 — quality buckets partition the events -/

theorem jsUpd_count_sum {κ : Type} [DecidableEq κ] (m : List (κ × ℕ)) (k : κ) :
    ((jsUpd m k 0 (fun n => n + 1)).map Prod.snd).sum =
      (m.map Prod.snd).sum + 1 := by
  induction m with
  | nil => rfl
  | cons p t ih =>
    obtain ⟨k', v⟩ := p
    by_cases hk : k = k' <;> simp [jsUpd, hk, ih] <;> omega

theorem devStep_quality_sum (st : DevState) (r : TautulliHistoryRecord) :
    (devStep st r).quality.directPlay + (devStep st r).quality.directStream +
        (devStep st r).quality.transcode =
      (st.quality.directPlay + st.quality.directStream + st.quality.transcode) + 1 := by
  simp only [devStep]
  split <;> (try split) <;> simp <;> omega

theorem devStep_res_sum (st : DevState) (r : TautulliHistoryRecord) :
    ((devStep st r).quality.resolutions.map Prod.snd).sum =
      (st.quality.resolutions.map Prod.snd).sum + 1 := by
  simp only [devStep]
  split <;> (try split) <;> simp [jsUpd_count_sum]

theorem devFold_quality_sum (history : HistoryList) (st : DevState) :
    (history.foldl devStep st).quality.directPlay +
        (history.foldl devStep st).quality.directStream +
        (history.foldl devStep st).quality.transcode =
      (st.quality.directPlay + st.quality.directStream + st.quality.transcode) +
        history.length := by
  induction history generalizing st with
  | nil => simp
  | cons r t ih =>
    simp only [List.foldl_cons, List.length_cons, ih (devStep st r),
      devStep_quality_sum]
    omega

theorem devFold_res_sum (history : HistoryList) (st : DevState) :
    ((history.foldl devStep st).quality.resolutions.map Prod.snd).sum =
      (st.quality.resolutions.map Prod.snd).sum + history.length := by
  induction history generalizing st with
  | nil => simp
  | cons r t ih =>
    simp only [List.foldl_cons, List.length_cons, ih (devStep st r),
      devStep_res_sum]
    omega

/-- C10: each event increments exactly one of the three quality buckets
(`transcode` on `'transcode'`, `directStream` on `'copy'`, `directPlay`
otherwise — including missing/unrecognized decisions) and exactly one
resolution counter, so both the bucket totals and the resolution counts
sum to the number of events. -/
theorem claim_C10_quality_partition (history : HistoryList) :
    (qualityStatsOf history).directPlay + (qualityStatsOf history).directStream +
        (qualityStatsOf history).transcode = history.length ∧
    ((qualityStatsOf history).resolutions.map Prod.snd).sum = history.length := by
  constructor
  · simpa [qualityStatsOf, devFold, devInit] using
      devFold_quality_sum history devInit
  · simpa [qualityStatsOf, devFold, devInit] using
      devFold_res_sum history devInit

/-! ## Stable-sort machinery

`jsSortBy` is a stable insertion sort; since stable sorting w.r.t. a fixed
comparator is unique, these lemmas characterise the engine's
`Array.prototype.sort` calls.  The key result: sorting a list that is
`Pairwise P` descending by a metric `f` yields a list that is pairwise
"strictly greater metric, or equal metric and `P`" — i.e. sortedness plus
preservation of the input order on ties. -/

theorem mem_jsInsert {α : Type} (bef : α → α → Bool) (x : α) (l : List α) (a : α) :
    a ∈ jsInsert bef x l ↔ a = x ∨ a ∈ l := by
  induction l with
  | nil => simp [jsInsert]
  | cons y t ih =>
    by_cases h : bef y x
    · simp only [jsInsert, h, if_true, List.mem_cons, ih]
      tauto
    · simp only [jsInsert, h, if_false, Bool.false_eq_true, List.mem_cons]

theorem length_jsInsert {α : Type} (bef : α → α → Bool) (x : α) (l : List α) :
    (jsInsert bef x l).length = l.length + 1 := by
  induction l with
  | nil => rfl
  | cons y t ih =>
    by_cases h : bef y x <;> simp [jsInsert, h, ih]

theorem mem_jsSortBy {α : Type} (bef : α → α → Bool) (l : List α) (a : α) :
    a ∈ jsSortBy bef l ↔ a ∈ l := by
  induction l with
  | nil => simp [jsSortBy]
  | cons x t ih => simp [jsSortBy, mem_jsInsert, ih]

theorem length_jsSortBy {α : Type} (bef : α → α → Bool) (l : List α) :
    (jsSortBy bef l).length = l.length := by
  induction l with
  | nil => rfl
  | cons x t ih => simp [jsSortBy, length_jsInsert, ih]

theorem perm_jsSortBy {α : Type} (bef : α → α → Bool) (l : List α) :
    (jsSortBy bef l).Perm l := by
  induction l with
  | nil => exact List.Perm.refl _
  | cons x t ih =>
    have insx : ∀ (l' : List α), (jsInsert bef x l').Perm (x :: l') := by
      intro l'
      induction l' with
      | nil => exact List.Perm.refl _
      | cons y s ihy =>
        by_cases h : bef y x
        · simpa [jsInsert, h] using
            ((ihy.cons y).trans (List.Perm.swap x y s))
        · simp [jsInsert, h]
    exact (insx (jsSortBy bef t)).trans (ih.cons x)

section SortPairwise

variable {α : Type} {M : Type} [LinearOrder M]

/-- Inserting into a descending-sorted list keeps the combined
"greater-metric or equal-and-`P`" pairwise relation, provided the inserted
element is `P`-before everything already present. -/
theorem pairwise_jsInsert_desc (f : α → M) (P : α → α → Prop) (x : α)
    (l : List α)
    (hl : l.Pairwise (fun a b => f b < f a ∨ (f a = f b ∧ P a b)))
    (hx : ∀ y ∈ l, P x y) :
    (jsInsert (fun y x => decide (f x < f y)) x l).Pairwise
      (fun a b => f b < f a ∨ (f a = f b ∧ P a b)) := by
  induction l with
  | nil => simp [jsInsert]
  | cons y t ih =>
    rcases List.pairwise_cons.mp hl with ⟨hyt, ht⟩
    by_cases h : f x < f y
    · have step : jsInsert (fun y x => decide (f x < f y)) x (y :: t) =
          y :: jsInsert (fun y x => decide (f x < f y)) x t := by
        simp [jsInsert, h]
      rw [step]
      refine List.pairwise_cons.mpr ⟨?_, ih ht (fun z hz => hx z (List.mem_cons_of_mem y hz))⟩
      intro z hz
      rcases (mem_jsInsert _ x t z).mp hz with rfl | hzt
      · exact Or.inl h
      · exact hyt z hzt
    · have step : jsInsert (fun y x => decide (f x < f y)) x (y :: t) =
          x :: y :: t := by
        simp [jsInsert, h]
      rw [step]
      have hyx : f y ≤ f x := le_of_not_lt h
      refine List.pairwise_cons.mpr ⟨?_, hl⟩
      intro z hz
      rcases List.mem_cons.mp hz with rfl | hzt
      · rcases lt_or_eq_of_le hyx with h' | h'
        · exact Or.inl h'
        · exact Or.inr ⟨h'.symm, hx z (List.mem_cons_self _ _)⟩
      · rcases hyt z hzt with h' | ⟨h', _⟩
        · rcases lt_or_eq_of_le (le_of_lt (lt_of_lt_of_le h' hyx)) with h'' | h''
          · exact Or.inl h''
          · exact Or.inr ⟨h''.symm, hx z (List.mem_cons_of_mem y hzt)⟩
        · rcases lt_or_eq_of_le (le_of_eq_of_le h'.symm hyx) with h'' | h''
          · exact Or.inl h''
          · exact Or.inr ⟨h''.symm, hx z (List.mem_cons_of_mem y hzt)⟩

/-- Stable descending sort: the output is sorted by `f` (non-strictly) and
ties keep any pairwise relation `P` the input had. -/
theorem pairwise_jsSortBy_desc (f : α → M) (P : α → α → Prop) (l : List α)
    (h : l.Pairwise P) :
    (jsSortBy (fun y x => decide (f x < f y)) l).Pairwise
      (fun a b => f b < f a ∨ (f a = f b ∧ P a b)) := by
  induction l with
  | nil => simp [jsSortBy]
  | cons x t ih =>
    rcases List.pairwise_cons.mp h with ⟨hxt, ht⟩
    exact pairwise_jsInsert_desc f P x _ (ih ht)
      (fun y hy => hxt y ((mem_jsSortBy _ t y).mp hy))

/-- Ascending analogue of `pairwise_jsInsert_desc` (for the
`(a, b) => a.k - b.k` comparators, whose `bef` test is `f y < f x`). -/
theorem pairwise_jsInsert_asc (f : α → M) (P : α → α → Prop) (x : α)
    (l : List α)
    (hl : l.Pairwise (fun a b => f a < f b ∨ (f a = f b ∧ P a b)))
    (hx : ∀ y ∈ l, P x y) :
    (jsInsert (fun y x => decide (f y < f x)) x l).Pairwise
      (fun a b => f a < f b ∨ (f a = f b ∧ P a b)) := by
  induction l with
  | nil => simp [jsInsert]
  | cons y t ih =>
    rcases List.pairwise_cons.mp hl with ⟨hyt, ht⟩
    by_cases h : f y < f x
    · have step : jsInsert (fun y x => decide (f y < f x)) x (y :: t) =
          y :: jsInsert (fun y x => decide (f y < f x)) x t := by
        simp [jsInsert, h]
      rw [step]
      refine List.pairwise_cons.mpr ⟨?_, ih ht (fun z hz => hx z (List.mem_cons_of_mem y hz))⟩
      intro z hz
      rcases (mem_jsInsert _ x t z).mp hz with rfl | hzt
      · exact Or.inl h
      · exact hyt z hzt
    · have step : jsInsert (fun y x => decide (f y < f x)) x (y :: t) =
          x :: y :: t := by
        simp [jsInsert, h]
      rw [step]
      have hxy : f x ≤ f y := le_of_not_lt h
      refine List.pairwise_cons.mpr ⟨?_, hl⟩
      intro z hz
      rcases List.mem_cons.mp hz with rfl | hzt
      · rcases lt_or_eq_of_le hxy with h' | h'
        · exact Or.inl h'
        · exact Or.inr ⟨h', hx z (List.mem_cons_self _ _)⟩
      · rcases hyt z hzt with h' | ⟨h', _⟩
        · rcases lt_or_eq_of_le (le_of_lt (lt_of_le_of_lt hxy h')) with h'' | h''
          · exact Or.inl h''
          · exact Or.inr ⟨h'', hx z (List.mem_cons_of_mem y hzt)⟩
        · rcases lt_or_eq_of_le (le_of_le_of_eq hxy h') with h'' | h''
          · exact Or.inl h''
          · exact Or.inr ⟨h'', hx z (List.mem_cons_of_mem y hzt)⟩

/-- Stable ascending sort. -/
theorem pairwise_jsSortBy_asc (f : α → M) (P : α → α → Prop) (l : List α)
    (h : l.Pairwise P) :
    (jsSortBy (fun y x => decide (f y < f x)) l).Pairwise
      (fun a b => f a < f b ∨ (f a = f b ∧ P a b)) := by
  induction l with
  | nil => simp [jsSortBy]
  | cons x t ih =>
    rcases List.pairwise_cons.mp h with ⟨hxt, ht⟩
    exact pairwise_jsInsert_asc f P x _ (ih ht)
      (fun y hy => hxt y ((mem_jsSortBy _ t y).mp hy))

end SortPairwise

/-! ## Grouping machinery: keys, values and first-encounter order -/

section Grouping

variable {α κ β : Type} [DecidableEq κ]

theorem jsUpd_fst_present (m : List (κ × β)) (k : κ) (init : β) (f : β → β)
    (h : k ∈ m.map Prod.fst) :
    (jsUpd m k init f).map Prod.fst = m.map Prod.fst := by
  induction m with
  | nil => simp at h
  | cons p t ih =>
    obtain ⟨k', v⟩ := p
    by_cases hk : k = k'
    · simp [jsUpd, hk]
    · have hmem : k ∈ t.map Prod.fst := by simpa [hk] using h
      simp [jsUpd, hk, ih hmem]

theorem jsUpd_fst_absent (m : List (κ × β)) (k : κ) (init : β) (f : β → β)
    (h : k ∉ m.map Prod.fst) :
    (jsUpd m k init f).map Prod.fst = m.map Prod.fst ++ [k] := by
  induction m with
  | nil => simp [jsUpd]
  | cons p t ih =>
    obtain ⟨k', v⟩ := p
    by_cases hk : k = k'
    · exact absurd (by simp [hk]) h
    · have hmem : k ∉ t.map Prod.fst := fun hc => h (by simp [hc])
      simp [jsUpd, hk, ih hmem]

theorem lookupA_jsUpd_self (m : List (κ × β)) (k : κ) (init : β) (f : β → β) :
    lookupA (jsUpd m k init f) k = some (f ((lookupA m k).getD init)) := by
  induction m with
  | nil => simp [jsUpd, lookupA]
  | cons p t ih =>
    obtain ⟨k', v⟩ := p
    by_cases hk : k = k' <;> simp [jsUpd, lookupA, hk, ih]

theorem lookupA_jsUpd_other (m : List (κ × β)) (k k' : κ) (init : β)
    (f : β → β) (h : k' ≠ k) :
    lookupA (jsUpd m k init f) k' = lookupA m k' := by
  induction m with
  | nil => simp [jsUpd, lookupA, h]
  | cons p t ih =>
    obtain ⟨k'', v⟩ := p
    by_cases hk : k = k''
    · subst hk
      simp [jsUpd, lookupA, h]
    · by_cases hk' : k' = k'' <;> simp [jsUpd, lookupA, hk, hk', ih]

theorem mem_jsUpd (m : List (κ × β)) (k : κ) (init : β) (f : β → β)
    (p : κ × β) (hp : p ∈ jsUpd m k init f) :
    p ∈ m ∨ p = (k, f init) ∨ ∃ v, (k, v) ∈ m ∧ p = (k, f v) := by
  induction m with
  | nil =>
    simp only [jsUpd, List.mem_singleton] at hp
    exact Or.inr (Or.inl hp)
  | cons q t ih =>
    obtain ⟨k', v⟩ := q
    by_cases hk : k = k'
    · simp only [jsUpd, if_pos hk, List.mem_cons] at hp
      rcases hp with rfl | hp
      · exact Or.inr (Or.inr ⟨v, by simp [hk], rfl⟩)
      · exact Or.inl (List.mem_cons_of_mem _ hp)
    · simp only [jsUpd, if_neg hk, List.mem_cons] at hp
      rcases hp with rfl | hp
      · exact Or.inl (List.mem_cons_self _ _)
      · rcases ih hp with h | h | ⟨w, hw, rfl⟩
        · exact Or.inl (List.mem_cons_of_mem _ h)
        · exact Or.inr (Or.inl h)
        · exact Or.inr (Or.inr ⟨w, List.mem_cons_of_mem _ hw, rfl⟩)

/-- Every entry of a grouped map satisfies any invariant that holds of the
per-key initial value and is preserved by the per-event mutation.  The
value under key `k` is only ever touched by events whose key is `k`. -/
theorem jsGroup_value_inv (key : α → κ) (init : α → β) (step : α → β → β)
    (Q : κ → β → Prop)
    (hinit : ∀ r, Q (key r) (init r))
    (hstep : ∀ r v, Q (key r) v → Q (key r) (step r v)) (l : List α) :
    ∀ p ∈ jsGroup key init step l, Q p.1 p.2 := by
  suffices h : ∀ (l : List α) (m : List (κ × β)), (∀ p ∈ m, Q p.1 p.2) →
      ∀ p ∈ l.foldl (fun m r => jsUpd m (key r) (init r) (step r)) m, Q p.1 p.2 by
    exact h l [] (by simp)
  intro l
  induction l with
  | nil => intro m hm; simpa using hm
  | cons r t ih =>
    intro m hm
    refine ih _ (fun p hp => ?_)
    rcases mem_jsUpd _ _ _ _ p hp with h | rfl | ⟨v, hv, rfl⟩
    · exact hm p h
    · exact hstep r (init r) (hinit r)
    · exact hstep r v (hm (key r, v) hv)

theorem jsGroup_fst_aux (key : α → κ) (init : α → β) (step : α → β → β) :
    ∀ (l : List α) (m : List (κ × β)),
      ((l.foldl (fun m r => jsUpd m (key r) (init r) (step r)) m).map Prod.fst)
        = (l.map key).foldl (fun acc k => if k ∈ acc then acc else acc ++ [k])
            (m.map Prod.fst) := by
  intro l
  induction l with
  | nil => intro m; simp
  | cons r t ih =>
    intro m
    simp only [List.foldl_cons, List.map_cons]
    by_cases h : key r ∈ m.map Prod.fst
    · rw [ih, jsUpd_fst_present _ _ _ _ h, if_pos h]
    · rw [ih, jsUpd_fst_absent _ _ _ _ h, if_neg h]

/-- The keys of a grouped map are the distinct keys of the input stream in
first-encounter order. -/
theorem jsGroup_fst (key : α → κ) (init : α → β) (step : α → β → β)
    (l : List α) :
    (jsGroup key init step l).map Prod.fst = firstDedup (l.map key) := by
  simpa using jsGroup_fst_aux key init step l []

theorem jsGroup_keys_nodup (key : α → κ) (init : α → β) (step : α → β → β)
    (l : List α) :
    ((jsGroup key init step l).map Prod.fst).Nodup := by
  rw [jsGroup_fst]; exact nodup_firstDedup _

end Grouping

/-! ## First-encounter order of `firstDedup` -/

theorem firstDedup_order_aux {α : Type} [DecidableEq α] :
    ∀ (rest p acc : List α),
      acc.Nodup → (∀ a ∈ acc, a ∈ p) → (∀ a ∈ p, a ∈ acc) →
      acc.Pairwise (fun a b => p.indexOf a < p.indexOf b) →
      ((rest.foldl (fun acc k => if k ∈ acc then acc else acc ++ [k]) acc).Nodup ∧
        (rest.foldl (fun acc k => if k ∈ acc then acc else acc ++ [k]) acc).Pairwise
          (fun a b => (p ++ rest).indexOf a < (p ++ rest).indexOf b)) := by
  intro rest
  induction rest with
  | nil =>
    intro p acc h1 _ _ h4
    simpa using ⟨h1, h4⟩
  | cons x t ih =>
    intro p acc h1 h2 h3 h4
    simp only [List.foldl_cons]
    have hrw : p ++ x :: t = (p ++ [x]) ++ t := by simp
    rw [hrw]
    by_cases hx : x ∈ acc
    · simp only [hx, if_true]
      refine ih (p ++ [x]) acc h1 (fun a ha => List.mem_append_left _ (h2 a ha))
        (fun a ha => ?_) ?_
      · rcases List.mem_append.mp ha with ha | ha
        · exact h3 a ha
        · exact (List.mem_singleton.mp ha) ▸ hx
      · refine h4.imp_of_mem (fun {a b} ha hb hab => ?_)
        rw [List.indexOf_append_of_mem (h2 a ha),
          List.indexOf_append_of_mem (h2 b hb)]
        exact hab
    · simp only [hx, if_false]
      have hxp : x ∉ p := fun hc => hx (h3 x hc)
      refine ih (p ++ [x]) (acc ++ [x])
        (List.Nodup.append h1 (List.nodup_singleton x) (by simpa using hx))
        (fun a ha => ?_) (fun a ha => ?_) ?_
      · rcases List.mem_append.mp ha with ha | ha
        · exact List.mem_append_left _ (h2 a ha)
        · exact List.mem_append_right _ ha
      · rcases List.mem_append.mp ha with ha | ha
        · exact List.mem_append_left _ (h3 a ha)
        · exact List.mem_append_right _ ha
      · rw [List.pairwise_append]
        refine ⟨h4.imp_of_mem (fun {a b} ha hb hab => ?_),
          List.pairwise_singleton _ _, fun a ha b hb => ?_⟩
        · rw [List.indexOf_append_of_mem (h2 a ha),
            List.indexOf_append_of_mem (h2 b hb)]
          exact hab
        · rcases List.mem_singleton.mp hb
          rw [List.indexOf_append_of_mem (h2 a ha),
            List.indexOf_append_of_not_mem hxp, List.indexOf_cons_self]
          have := List.indexOf_lt_length.mpr (h2 a ha)
          omega

/-- The distinct keys come out of `firstDedup` ordered by the position of
their first occurrence in the stream. -/
theorem pairwise_indexOf_firstDedup {α : Type} [DecidableEq α] (L : List α) :
    (firstDedup L).Pairwise (fun a b => L.indexOf a < L.indexOf b) := by
  have h := firstDedup_order_aux L [] [] List.nodup_nil (by simp) (by simp)
    List.Pairwise.nil
  simpa [firstDedup] using h.2

/-! ## `Object.entries` enumeration lemmas -/

/-- String-keyed objects whose keys never look like array indices are
enumerated in insertion order. -/
theorem strEntries_eq_self {β : Type} (m : List (String × β))
    (h : ∀ p ∈ m, ¬ isArrayIndex p.1) : strEntries m = m := by
  have h1 : m.filter (fun p => isArrayIndex p.1) = [] := by
    rw [List.filter_eq_nil_iff]
    intro p hp
    simpa using h p hp
  have h2 : m.filter (fun p => ¬ isArrayIndex p.1) = m := by
    rw [List.filter_eq_self]
    intro p hp
    simpa using h p hp
  rw [strEntries, h1, h2]
  simp [jsSortBy]

/-- Numeric-keyed objects with all keys below `2^32 - 1` are enumerated in
ascending key order. -/
theorem numEntries_eq_sorted {β : Type} (m : List (ℕ × β))
    (h : ∀ p ∈ m, p.1 < 4294967295) :
    numEntries m = jsSortBy (fun y x => decide (y.1 < x.1)) m := by
  have h1 : m.filter (fun p => p.1 < 4294967295) = m := by
    rw [List.filter_eq_self]
    intro p hp
    simpa using h p hp
  have h2 : m.filter (fun p => ¬ p.1 < 4294967295) = [] := by
    rw [List.filter_eq_nil_iff]
    intro p hp
    simpa using h p hp
  rw [numEntries, h1, h2]
  simp

theorem mem_numEntries {β : Type} (m : List (ℕ × β)) (p : ℕ × β) :
    p ∈ numEntries m ↔ p ∈ m := by
  simp only [numEntries, List.mem_append, mem_jsSortBy, List.mem_filter]
  by_cases h : p.1 < 4294967295 <;> simp [h]

theorem mem_strEntries {β : Type} (m : List (String × β)) (p : String × β) :
    p ∈ strEntries m ↔ p ∈ m := by
  simp only [strEntries, List.mem_append, mem_jsSortBy, List.mem_filter]
  by_cases h : isArrayIndex p.1 <;> simp [h]

/-! ## Count semantics of the `(m[k] || 0) + 1` pattern -/

theorem countAssoc_getD_aux {α κ : Type} [DecidableEq κ] (key : α → κ) :
    ∀ (l : List α) (m : List (κ × ℕ)) (k : κ),
      (lookupA (l.foldl (fun m r => jsUpd m (key r) 0 (fun n => n + 1)) m) k).getD 0
        = (lookupA m k).getD 0 + (l.filter (fun a => decide (key a = k))).length := by
  intro l
  induction l with
  | nil => intro m k; simp
  | cons r t ih =>
    intro m k
    simp only [List.foldl_cons, List.filter_cons]
    by_cases hk : key r = k
    · subst hk
      rw [ih]
      rw [lookupA_jsUpd_self]
      simp only [Option.getD_some, decide_True, if_true]
      simp only [List.length_cons]
      omega
    · rw [ih, lookupA_jsUpd_other _ _ _ _ _ (fun h => hk h.symm)]
      simp [hk]

theorem countAssoc_getD {α κ : Type} [DecidableEq κ] (key : α → κ)
    (l : List α) (k : κ) :
    (lookupA (countAssoc key l) k).getD 0 =
      (l.filter (fun a => decide (key a = k))).length := by
  have h := countAssoc_getD_aux key l [] k
  simpa [countAssoc, jsGroup, lookupA] using h

theorem lookupA_eq_of_mem_nodup {κ β : Type} [DecidableEq κ]
    (m : List (κ × β)) (k : κ) (v : β)
    (hnd : (m.map Prod.fst).Nodup) (hm : (k, v) ∈ m) : lookupA m k = some v := by
  induction m with
  | nil => simp at hm
  | cons p t ih =>
    obtain ⟨k', v'⟩ := p
    rcases List.mem_cons.mp hm with h | h
    · rw [Prod.ext_iff] at h
      obtain ⟨h1, h2⟩ := h
      subst h1
      subst h2
      simp [lookupA]
    · have hnd' : k' ∉ t.map Prod.fst ∧ (t.map Prod.fst).Nodup := by
        rw [List.map_cons, List.nodup_cons] at hnd
        exact hnd
      by_cases hk : k = k'
      · subst hk
        exact absurd (by simpa using List.mem_map_of_mem Prod.fst h) hnd'.1
      · simp only [lookupA, if_neg hk]
        exact ih hnd'.2 h

/-! ## Argmax analysis for the activity peaks -/

/-- The `sort-descending-then-take-head` pattern: the reported key belongs
to a maximal-count entry, and among tied maximal entries it is minimal for
whatever pairwise relation the entry list carried. -/
theorem argmaxKey_spec {κ : Type} (entries : List (κ × ℕ)) (dflt : κ)
    (P : κ × ℕ → κ × ℕ → Prop) (hne : entries ≠ []) (hp : entries.Pairwise P) :
    ∃ e ∈ entries, argmaxKey entries dflt = e.1 ∧
      (∀ q ∈ entries, q.2 ≤ e.2) ∧ (∀ q ∈ entries, q.2 = e.2 → q = e ∨ P e q) := by
  have hsorted := pairwise_jsSortBy_desc (fun p : κ × ℕ => p.2) P entries hp
  rcases hsl : jsSortBy (fun y x : κ × ℕ => decide (x.2 < y.2)) entries with _ | ⟨e, t⟩
  · exfalso
    have hl := length_jsSortBy (fun y x : κ × ℕ => decide (x.2 < y.2)) entries
    rw [hsl] at hl
    exact hne (List.length_eq_zero.mp hl.symm)
  · have he : e ∈ entries := by
      have : e ∈ jsSortBy (fun y x : κ × ℕ => decide (x.2 < y.2)) entries := by
        rw [hsl]; exact List.mem_cons_self _ _
      exact (mem_jsSortBy _ _ _).mp this
    rw [hsl] at hsorted
    have hrel := List.pairwise_cons.mp hsorted |>.1
    refine ⟨e, he, ?_, ?_, ?_⟩
    · simp [argmaxKey, hsl]
    · intro q hq
      have hq' : q ∈ e :: t := by
        rw [← hsl]; exact (mem_jsSortBy _ _ _).mpr hq
      rcases List.mem_cons.mp hq' with rfl | hqt
      · exact le_refl _
      · rcases hrel q hqt with h | ⟨h, _⟩
        · exact le_of_lt h
        · exact le_of_eq h.symm
    · intro q hq hq2
      have hq' : q ∈ e :: t := by
        rw [← hsl]; exact (mem_jsSortBy _ _ _).mpr hq
      rcases List.mem_cons.mp hq' with rfl | hqt
      · exact Or.inl rfl
      · rcases hrel q hqt with h | ⟨_, h⟩
        · exact absurd hq2 (ne_of_lt h)
        · exact Or.inr h

theorem count_filter_pos {α β : Type} [DecidableEq β] (l : List α) (f : α → β)
    (a : β) (h : a ∈ l.map f) :
    0 < (l.filter (fun x => decide (f x = a))).length := by
  rcases List.mem_map.mp h with ⟨x, hx, rfl⟩
  exact List.length_pos.mpr
    (List.ne_nil_of_mem (List.mem_filter.mpr ⟨hx, by simp⟩))

theorem count_filter_zero {α β : Type} [DecidableEq β] (l : List α) (f : α → β)
    (a : β) (h : a ∉ l.map f) :
    (l.filter (fun x => decide (f x = a))).length = 0 := by
  rw [List.length_eq_zero, List.filter_eq_nil_iff]
  intro x hx
  simp only [decide_eq_true_eq]
  exact fun hc => h (hc ▸ List.mem_map_of_mem f hx)

/-- Specification of the month/day-of-week peak computation: the reported
value occurs in the history, has maximal count, and on ties is the value
whose key was encountered first (string keys that never look like array
indices keep object insertion order). -/
theorem argmax_strCount_spec (key : TautulliHistoryRecord → String)
    (history : HistoryList) (dflt : String) (hne : history ≠ [])
    (hnotidx : ∀ r ∈ history, ¬ isArrayIndex (key r)) :
    argmaxKey (strEntries (countAssoc key history)) dflt ∈ history.map key ∧
    (∀ s : String,
      (history.filter (fun r => decide (key r = s))).length ≤
        (history.filter (fun r =>
          decide (key r = argmaxKey (strEntries (countAssoc key history)) dflt))).length) ∧
    (∀ s ∈ history.map key,
      (history.filter (fun r => decide (key r = s))).length =
        (history.filter (fun r =>
          decide (key r = argmaxKey (strEntries (countAssoc key history)) dflt))).length →
      (history.map key).indexOf
          (argmaxKey (strEntries (countAssoc key history)) dflt) ≤
        (history.map key).indexOf s) := by
  have hfst : (countAssoc key history).map Prod.fst = firstDedup (history.map key) :=
    jsGroup_fst key (fun _ => 0) (fun _ n => n + 1) history
  have hkeymem : ∀ p ∈ countAssoc key history, p.1 ∈ history.map key := by
    intro p hp
    have : p.1 ∈ (countAssoc key history).map Prod.fst := List.mem_map_of_mem _ hp
    rw [hfst] at this
    exact (mem_firstDedup _ _).mp this
  have hidx : ∀ p ∈ countAssoc key history, ¬ isArrayIndex p.1 := by
    intro p hp
    rcases List.mem_map.mp (hkeymem p hp) with ⟨r, hr, hrk⟩
    exact hrk ▸ hnotidx r hr
  have hse : strEntries (countAssoc key history) = countAssoc key history :=
    strEntries_eq_self _ hidx
  have hnd : ((countAssoc key history).map Prod.fst).Nodup :=
    jsGroup_keys_nodup key _ _ history
  have hpair : (countAssoc key history).Pairwise
      (fun p q => (history.map key).indexOf p.1 < (history.map key).indexOf q.1) := by
    have h1 := pairwise_indexOf_firstDedup (history.map key)
    rw [← hfst, List.pairwise_map] at h1
    exact h1
  have hmne : countAssoc key history ≠ [] := by
    intro hc
    rcases history with _ | ⟨r, t⟩
    · exact hne rfl
    · have : key r ∈ firstDedup ((r :: t).map key) :=
        (mem_firstDedup _ _).mpr (by simp)
      rw [← hfst, hc] at this
      simp at this
  have hval : ∀ p ∈ countAssoc key history,
      p.2 = (history.filter (fun r => decide (key r = p.1))).length := by
    intro p hp
    have h1 : lookupA (countAssoc key history) p.1 = some p.2 :=
      lookupA_eq_of_mem_nodup _ _ _ hnd (by simpa using hp)
    have h2 := countAssoc_getD key history p.1
    rw [h1] at h2
    simpa using h2
  rw [hse]
  obtain ⟨e, he, heq, hmax, htie⟩ :=
    argmaxKey_spec (countAssoc key history) dflt _ hmne hpair
  rw [heq]
  refine ⟨hkeymem e he, ?_, ?_⟩
  · intro s
    by_cases hs : s ∈ history.map key
    · have hs' : s ∈ (countAssoc key history).map Prod.fst := by
        rw [hfst]; exact (mem_firstDedup _ _).mpr hs
      rcases List.mem_map.mp hs' with ⟨q, hq, rfl⟩
      rw [← hval q hq, ← hval e he]
      exact hmax q hq
    · rw [count_filter_zero history key s hs]
      exact Nat.zero_le _
  · intro s hs hcnt
    have hs' : s ∈ (countAssoc key history).map Prod.fst := by
      rw [hfst]; exact (mem_firstDedup _ _).mpr hs
    rcases List.mem_map.mp hs' with ⟨q, hq, rfl⟩
    have hq2 : q.2 = e.2 := by
      rw [hval q hq, hval e he]
      exact hcnt
    rcases htie q hq hq2 with rfl | hlt
    · exact le_refl _
    · exact le_of_lt hlt

theorem monthName_mem (s : ℤ) : monthName s ∈ monthNames := by
  unfold monthName
  rcases Nat.lt_or_ge (monthNum s - 1) monthNames.length with h | h
  · rw [List.getD_eq_getElem _ _ h]
    exact List.getElem_mem _
  · rw [List.getD_eq_default _ _ h]
    decide

theorem dayName_mem (s : ℤ) : dayName s ∈ dayNames := by
  unfold dayName
  rcases Nat.lt_or_ge (dowIdx s) dayNames.length with h | h
  · rw [List.getD_eq_getElem _ _ h]
    exact List.getElem_mem _
  · rw [List.getD_eq_default _ _ h]
    decide

theorem monthName_not_index (s : ℤ) : ¬ isArrayIndex (monthName s) := by
  have h := monthName_mem s
  revert h
  have : ∀ m ∈ monthNames, ¬ isArrayIndex m := by decide
  exact this _

theorem dayName_not_index (s : ℤ) : ¬ isArrayIndex (dayName s) := by
  have h := dayName_mem s
  revert h
  have : ∀ d ∈ dayNames, ¬ isArrayIndex d := by decide
  exact this _

theorem hourOf_lt (s : ℤ) : hourOf s < 24 := by
  unfold hourOf
  have h1 : 0 ≤ s.emod 86400 := Int.emod_nonneg s (by norm_num)
  have h2 : s.emod 86400 < 86400 := Int.emod_lt_of_pos s (by norm_num)
  rw [Int.fdiv_eq_ediv _ (by norm_num)]
  rw [Int.toNat_lt (Int.ediv_nonneg h1 (by norm_num))]
  rw [Int.ediv_lt_iff_lt_mul (by norm_num)]
  omega

/-- Specification of the hour peak computation: numeric object keys
(all hours are below 24) enumerate in ascending order, so the reported
hour has maximal count and is the smallest hour among ties. -/
theorem argmax_hourCount_spec (history : HistoryList) (hne : history ≠ []) :
    argmaxKey (numEntries (hourCounts history)) 20 ∈
      history.map (fun r => hourOf r.started) ∧
    (∀ k : ℕ,
      (history.filter (fun r => decide (hourOf r.started = k))).length ≤
        (history.filter (fun r =>
          decide (hourOf r.started =
            argmaxKey (numEntries (hourCounts history)) 20))).length) ∧
    (∀ k ∈ history.map (fun r => hourOf r.started),
      (history.filter (fun r => decide (hourOf r.started = k))).length =
        (history.filter (fun r =>
          decide (hourOf r.started =
            argmaxKey (numEntries (hourCounts history)) 20))).length →
      argmaxKey (numEntries (hourCounts history)) 20 ≤ k) := by
  have hfst : (hourCounts history).map Prod.fst =
      firstDedup (history.map (fun r => hourOf r.started)) :=
    jsGroup_fst _ (fun _ => 0) (fun _ n => n + 1) history
  have hkeymem : ∀ p ∈ hourCounts history,
      p.1 ∈ history.map (fun r => hourOf r.started) := by
    intro p hp
    have : p.1 ∈ (hourCounts history).map Prod.fst := List.mem_map_of_mem _ hp
    rw [hfst] at this
    exact (mem_firstDedup _ _).mp this
  have hbound : ∀ p ∈ hourCounts history, p.1 < 4294967295 := by
    intro p hp
    rcases List.mem_map.mp (hkeymem p hp) with ⟨r, _, hrk⟩
    have := hourOf_lt r.started
    omega
  have hnum : numEntries (hourCounts history) =
      jsSortBy (fun y x => decide (y.1 < x.1)) (hourCounts history) :=
    numEntries_eq_sorted _ hbound
  have hnd : ((hourCounts history).map Prod.fst).Nodup :=
    jsGroup_keys_nodup _ _ _ history
  have hne' : (hourCounts history).Pairwise (fun p q => p.1 ≠ q.1) :=
    List.pairwise_map.mp hnd
  have hpair : (jsSortBy (fun y x => decide (y.1 < x.1))
      (hourCounts history)).Pairwise (fun p q => p.1 < q.1) := by
    have h := pairwise_jsSortBy_asc (fun p : ℕ × ℕ => p.1)
      (fun p q => p.1 ≠ q.1) (hourCounts history) hne'
    exact h.imp (fun hab => hab.elim id (fun h' => absurd h'.1 h'.2))
  have hmne : hourCounts history ≠ [] := by
    intro hc
    rcases history with _ | ⟨r, t⟩
    · exact hne rfl
    · have : hourOf r.started ∈
          firstDedup ((r :: t).map (fun r => hourOf r.started)) :=
        (mem_firstDedup _ _).mpr (by simp)
      rw [← hfst, hc] at this
      simp at this
  have hmne' : jsSortBy (fun y x => decide (y.1 < x.1)) (hourCounts history) ≠ [] := by
    intro hc
    have hl := length_jsSortBy (fun y x : ℕ × ℕ => decide (y.1 < x.1))
      (hourCounts history)
    rw [hc] at hl
    exact hmne (List.length_eq_zero.mp hl.symm)
  have hval : ∀ p ∈ hourCounts history,
      p.2 = (history.filter (fun r => decide (hourOf r.started = p.1))).length := by
    intro p hp
    have h1 : lookupA (hourCounts history) p.1 = some p.2 :=
      lookupA_eq_of_mem_nodup _ _ _ hnd (by simpa using hp)
    have h2 := countAssoc_getD (fun r => hourOf r.started) history p.1
    rw [show hourCounts history = countAssoc (fun r => hourOf r.started) history
      from rfl] at h1
    rw [h1] at h2
    simpa using h2
  rw [hnum]
  obtain ⟨e, he, heq, hmax, htie⟩ :=
    argmaxKey_spec (jsSortBy (fun y x => decide (y.1 < x.1)) (hourCounts history))
      20 _ hmne' hpair
  have hem : e ∈ hourCounts history := (mem_jsSortBy _ _ _).mp he
  rw [heq]
  refine ⟨hkeymem e hem, ?_, ?_⟩
  · intro k
    by_cases hk : k ∈ history.map (fun r => hourOf r.started)
    · have hk' : k ∈ (hourCounts history).map Prod.fst := by
        rw [hfst]; exact (mem_firstDedup _ _).mpr hk
      rcases List.mem_map.mp hk' with ⟨q, hq, rfl⟩
      rw [← hval q hq, ← hval e hem]
      exact hmax q ((mem_jsSortBy _ _ _).mpr hq)
    · rw [count_filter_zero history _ k hk]
      exact Nat.zero_le _
  · intro k hk hcnt
    have hk' : k ∈ (hourCounts history).map Prod.fst := by
      rw [hfst]; exact (mem_firstDedup _ _).mpr hk
    rcases List.mem_map.mp hk' with ⟨q, hq, rfl⟩
    have hq2 : q.2 = e.2 := by
      rw [hval q hq, hval e hem]
      exact hcnt
    rcases htie q ((mem_jsSortBy _ _ _).mpr hq) hq2 with rfl | hlt
    · exact le_refl _
    · exact le_of_lt hlt

/-! ## C3 — activity peaks -/

/-- C3 (amended): each reported activity peak is a value with the maximal
event count on its axis.  Ties are broken deterministically, but not
uniformly by lowest calendar index: the hour axis reports the lowest tied
hour (numeric JS object keys enumerate ascending), while the month and
day-of-week axes report the tied value first encountered in the event
sequence (string object keys keep insertion order), not the earliest
calendar month or Sunday-first weekday. -/
theorem claim_C3_activity_peaks (history : HistoryList) (hne : history ≠ []) :
    ((calculateViewingPatterns history).mostActiveMonth ∈
        history.map (fun r => monthName r.started) ∧
      (∀ s : String,
        (history.filter (fun r => decide (monthName r.started = s))).length ≤
          (history.filter (fun r => decide (monthName r.started =
            (calculateViewingPatterns history).mostActiveMonth))).length) ∧
      (∀ s ∈ history.map (fun r => monthName r.started),
        (history.filter (fun r => decide (monthName r.started = s))).length =
          (history.filter (fun r => decide (monthName r.started =
            (calculateViewingPatterns history).mostActiveMonth))).length →
        (history.map (fun r => monthName r.started)).indexOf
            (calculateViewingPatterns history).mostActiveMonth ≤
          (history.map (fun r => monthName r.started)).indexOf s)) ∧
    ((calculateViewingPatterns history).mostActiveDayOfWeek ∈
        history.map (fun r => dayName r.started) ∧
      (∀ s : String,
        (history.filter (fun r => decide (dayName r.started = s))).length ≤
          (history.filter (fun r => decide (dayName r.started =
            (calculateViewingPatterns history).mostActiveDayOfWeek))).length) ∧
      (∀ s ∈ history.map (fun r => dayName r.started),
        (history.filter (fun r => decide (dayName r.started = s))).length =
          (history.filter (fun r => decide (dayName r.started =
            (calculateViewingPatterns history).mostActiveDayOfWeek))).length →
        (history.map (fun r => dayName r.started)).indexOf
            (calculateViewingPatterns history).mostActiveDayOfWeek ≤
          (history.map (fun r => dayName r.started)).indexOf s)) ∧
    ((calculateViewingPatterns history).mostActiveHour ∈
        history.map (fun r => hourOf r.started) ∧
      (∀ k : ℕ,
        (history.filter (fun r => decide (hourOf r.started = k))).length ≤
          (history.filter (fun r => decide (hourOf r.started =
            (calculateViewingPatterns history).mostActiveHour))).length) ∧
      (∀ k ∈ history.map (fun r => hourOf r.started),
        (history.filter (fun r => decide (hourOf r.started = k))).length =
          (history.filter (fun r => decide (hourOf r.started =
            (calculateViewingPatterns history).mostActiveHour))).length →
        (calculateViewingPatterns history).mostActiveHour ≤ k)) := by
  refine ⟨?_, ?_, ?_⟩
  · exact argmax_strCount_spec (fun r => monthName r.started) history "January"
      hne (fun r _ => monthName_not_index r.started)
  · exact argmax_strCount_spec (fun r => dayName r.started) history "Saturday"
      hne (fun r _ => dayName_not_index r.started)
  · exact argmax_hourCount_spec history hne

/-- An event started 2024-02-01T00:00:00Z. -/
def febEvent : TautulliHistoryRecord := { baseEvent with started := 1706745600 }

/-- An event started 2024-01-01T00:00:00Z. -/
def janEvent : TautulliHistoryRecord := { baseEvent with started := 1704067200 }

/-- C3 counterexample: with one February event followed by one January
event — a tie — the engine reports "February" (first encountered), while
the claim's lowest-calendar-index policy demands "January". -/
theorem claim_C3_counterexample :
    (calculateViewingPatterns [febEvent, janEvent]).mostActiveMonth = "February" ∧
    ([febEvent, janEvent].filter
        (fun r => decide (monthName r.started = "January"))).length =
      ([febEvent, janEvent].filter
        (fun r => decide (monthName r.started = "February"))).length ∧
    monthName janEvent.started = "January" := by
  refine ⟨by decide, by decide, by decide⟩

/-- Witness instantiating `claim_C3_activity_peaks` at a concrete
non-empty history. -/
theorem claim_C3_witness :
    (calculateViewingPatterns [febEvent, janEvent]).mostActiveMonth ∈
      [febEvent, janEvent].map (fun r => monthName r.started) :=
  (claim_C3_activity_peaks [febEvent, janEvent] (by decide)).1.1

/-! ## C6 — longest streak -/

/-- Calendar-consecutiveness break: the next date is not exactly one day
after the previous. -/
def consecBreak (a b : ℤ) : Bool := decide (b - a ≠ 1)

/-- Spec-side: the length of the longest run of calendar-consecutive dates
in the (sorted, distinct) date list. -/
def longestRun (days : List ℤ) : ℕ :=
  ((splitWhen consecBreak days).map List.length).foldl max 0

theorem splitWhen_head {α : Type} (brk : α → α → Bool) (a : α) (t : List α) :
    ∃ c cs, splitWhen brk (a :: t) = (a :: c) :: cs := by
  induction t generalizing a with
  | nil => exact ⟨[], [], rfl⟩
  | cons b t ih =>
    obtain ⟨c', cs', hc⟩ := ih b
    by_cases h : brk a b
    · exact ⟨[], (b :: c') :: cs', by simp [splitWhen, hc, h]⟩
    · exact ⟨b :: c', cs', by simp [splitWhen, hc, h]⟩

theorem le_foldl_max (l : List ℕ) (b : ℕ) : b ≤ l.foldl max b := by
  induction l generalizing b with
  | nil => exact le_refl _
  | cons x t ih => exact le_trans (le_max_left b x) (ih (max b x))

/-- The streak loop computes the running maximum over the lengths of the
consecutive-date runs; `cur` credits the first (possibly continuing) run. -/
theorem streakLoop_eq (t : List ℤ) : ∀ (prev : ℤ) (cur best : ℕ), 0 < cur →
    streakLoop prev t cur best =
      (((cur + ((splitWhen consecBreak (prev :: t)).headD []).length) - 1)
        :: ((splitWhen consecBreak (prev :: t)).tail.map List.length)).foldl
          max best := by
  induction t with
  | nil =>
    intro prev cur best hcur
    simp [streakLoop, splitWhen]
  | cons d t ih =>
    intro prev cur best hcur
    obtain ⟨c, cs, hc⟩ := splitWhen_head consecBreak d t
    by_cases h : d - prev = 1
    · have hbrk : consecBreak prev d = false := by
        simp [consecBreak, h]
      have hsw : splitWhen consecBreak (prev :: d :: t) = (prev :: d :: c) :: cs := by
        simp [splitWhen, hc, hbrk]
      have hloop : streakLoop prev (d :: t) cur best =
          streakLoop d t (cur + 1) best := by
        simp [streakLoop, h]
      rw [hloop, ih d (cur + 1) best (by omega), hc, hsw]
      simp only [List.headD_cons, List.tail_cons, List.length_cons]
      congr 2
      omega
    · have hbrk : consecBreak prev d = true := by
        simp [consecBreak, h]
      have hsw : splitWhen consecBreak (prev :: d :: t) = [prev] :: (d :: c) :: cs := by
        simp [splitWhen, hc, hbrk]
      have hloop : streakLoop prev (d :: t) cur best =
          streakLoop d t 1 (max best cur) := by
        simp [streakLoop, h]
      rw [hloop, ih d 1 (max best cur) (by omega), hc, hsw]
      simp only [List.headD_cons, List.tail_cons, List.length_cons,
        List.map_cons, List.foldl_cons]
      congr 2
      omega

theorem sortedDays_sorted (history : HistoryList) :
    (sortedDays history).Pairwise (· < ·) := by
  have hnd : (firstDedup (history.map (fun r => epochDay r.started))).Pairwise
      (fun a b => a ≠ b) :=
    nodup_firstDedup _
  have h := pairwise_jsSortBy_asc (fun d : ℤ => d) (fun a b => a ≠ b)
    (firstDedup (history.map (fun r => epochDay r.started))) hnd
  exact h.imp (fun hab => hab.elim id (fun h' => absurd h'.1 h'.2))

theorem mem_sortedDays (history : HistoryList) (d : ℤ) :
    d ∈ sortedDays history ↔ d ∈ history.map (fun r => epochDay r.started) := by
  rw [sortedDays, mem_jsSortBy, mem_firstDedup]

/-- C6: for every non-empty history `longestStreakDays` is the length of
the longest run of calendar-consecutive dates in the sorted distinct
activity-date list (which is strictly ascending and carries exactly the
events' started-dates); a single active day yields streak 1. -/
theorem claim_C6_longest_streak (history : HistoryList) (hne : history ≠ []) :
    (calculateViewingPatterns history).longestStreakDays =
      longestRun (sortedDays history) ∧
    (sortedDays history).Pairwise (· < ·) ∧
    (∀ d : ℤ, d ∈ sortedDays history ↔
      d ∈ history.map (fun r => epochDay r.started)) ∧
    1 ≤ (calculateViewingPatterns history).longestStreakDays := by
  have hsne : sortedDays history ≠ [] := by
    rcases history with _ | ⟨r, t⟩
    · exact absurd rfl hne
    · intro hc
      have : epochDay r.started ∈ sortedDays (r :: t) :=
        (mem_sortedDays _ _).mpr (by simp)
      rw [hc] at this
      simp at this
  have hstreak : (calculateViewingPatterns history).longestStreakDays =
      longestStreakDef history := rfl
  obtain ⟨d, t, hsd⟩ := List.exists_cons_of_ne_nil hsne
  obtain ⟨c, cs, hc⟩ := splitWhen_head consecBreak d t
  have hdef : longestStreakDef history = streakLoop d t 1 0 := by
    unfold longestStreakDef
    rw [hsd]
  have heq : longestStreakDef history = longestRun (sortedDays history) := by
    rw [hdef, streakLoop_eq t d 1 0 (by omega), hc, longestRun, hsd, hc]
    simp only [List.headD_cons, List.tail_cons, List.length_cons,
      List.map_cons, List.foldl_cons]
    congr 2
    omega
  refine ⟨hstreak ▸ heq, sortedDays_sorted history,
    mem_sortedDays history, ?_⟩
  rw [hstreak, heq, longestRun, hsd, hc]
  simp only [List.map_cons, List.foldl_cons, List.length_cons]
  calc 1 ≤ max 0 (c.length + 1) := by omega
    _ ≤ _ := le_foldl_max _ _

/-- The spec's boundary example: activity on 2024-01-01, 2024-01-02 and
2024-01-04. -/
def streakHistory : HistoryList :=
  [{ baseEvent with started := 1704067200 },
   { baseEvent with started := 1704153600 },
   { baseEvent with started := 1704326400 }]

/-- Witness instantiating `claim_C6_longest_streak`; the spec's
2024-01-01/02/04 example indeed yields a streak of 2. -/
theorem claim_C6_witness :
    (calculateViewingPatterns streakHistory).longestStreakDays =
      longestRun (sortedDays streakHistory) ∧
    (calculateViewingPatterns streakHistory).longestStreakDays = 2 :=
  ⟨(claim_C6_longest_streak streakHistory (by decide)).1, by decide⟩

/-! ## C4 — binge sessions -/

/-- Session boundary: the next episode starts more than 3600 seconds after
the previous one stopped. -/
def gapBreak (a b : TautulliHistoryRecord) : Bool :=
  decide (3600 < b.started - a.stopped)

/-- Total minutes of a session. -/
def sessionMins (s : HistoryList) : ℚ :=
  s.foldl (fun q e => q + (e.duration : ℚ) / 60) 0

/-- The `grandparent_title` recorded when a session closes: that of its
last episode. -/
def sessionTitle : HistoryList → String
  | [] => ""
  | [e] => e.grandparent_title
  | _ :: e' :: t => sessionTitle (e' :: t)

/-- All binge sessions, per show (shows enumerate in ascending
`grandparent_rating_key` order), each show's episodes sorted by start
time and split at gaps exceeding 3600 seconds. -/
def allSessions (history : HistoryList) : List HistoryList :=
  ((numEntries (groupedByShow
      (history.filter (fun r => r.media_type = "episode")))).map
    (fun p => splitWhen gapBreak (sortByStarted p.2))).flatten

/-- One step of the best-session comparison. -/
def bingeStep (st : BingeState) (v : ℚ × String) : BingeState :=
  if (st.best : ℚ) < v.1 then { best := jsRound v.1, showTitle := some v.2 }
  else st

theorem sessionMins_shift : ∀ (s : HistoryList) (q : ℚ),
    s.foldl (fun q e => q + (e.duration : ℚ) / 60) q = q + sessionMins s
  | [], q => by simp [sessionMins]
  | e :: t, q => by
    show (e :: t).foldl (fun q e => q + (e.duration : ℚ) / 60) q =
      q + (e :: t).foldl (fun q e => q + (e.duration : ℚ) / 60) 0
    rw [List.foldl_cons, List.foldl_cons, sessionMins_shift t,
      sessionMins_shift t]
    ring

theorem sessionMins_cons (e : TautulliHistoryRecord) (s : HistoryList) :
    sessionMins (e :: s) = (e.duration : ℚ) / 60 + sessionMins s := by
  show (e :: s).foldl (fun q e => q + (e.duration : ℚ) / 60) 0 = _
  rw [List.foldl_cons, sessionMins_shift s]
  ring

theorem sessionTitle_cons (e e' : TautulliHistoryRecord) (t : HistoryList) :
    sessionTitle (e :: e' :: t) = sessionTitle (e' :: t) := rfl

/-- The per-show loop equals the fold of the comparison step over that
show's session summaries, with `cur` crediting the still-open first
session. -/
theorem bingeGo_eq : ∀ (eps : HistoryList) (cur : ℚ) (st : BingeState),
    bingeGo eps cur st =
      (match splitWhen gapBreak eps with
       | [] => st
       | s :: ss =>
         ((cur + sessionMins s, sessionTitle s) ::
           ss.map (fun s => (sessionMins s, sessionTitle s))).foldl bingeStep st)
  | [], cur, st => by simp [bingeGo, splitWhen]
  | [e], cur, st => by
    have hm : sessionMins [e] = (e.duration : ℚ) / 60 := by
      simp [sessionMins]
    simp only [bingeGo, splitWhen, List.map_nil, List.foldl_cons,
      List.foldl_nil, bingeStep, hm, sessionTitle]
  | e :: e' :: t, cur, st => by
    obtain ⟨c, cs, hc⟩ := splitWhen_head gapBreak e' t
    by_cases hb : 3600 < e'.started - e.stopped
    · have hbrk : gapBreak e e' = true := by simp [gapBreak, hb]
      have hsw : splitWhen gapBreak (e :: e' :: t) =
          [e] :: (e' :: c) :: cs := by
        simp [splitWhen, hc, hbrk]
      have hstep : bingeGo (e :: e' :: t) cur st =
          bingeGo (e' :: t) 0
            (bingeStep st (cur + (e.duration : ℚ) / 60, e.grandparent_title)) := by
        simp [bingeGo, hb, bingeStep]
      rw [hstep, bingeGo_eq (e' :: t) 0 _, hsw, hc]
      have hm : sessionMins [e] = (e.duration : ℚ) / 60 := by
        simp [sessionMins]
      simp only [List.map_cons, List.foldl_cons, hm, sessionTitle, zero_add]
    · have hbrk : gapBreak e e' = false := by simp [gapBreak, hb]
      have hsw : splitWhen gapBreak (e :: e' :: t) =
          (e :: e' :: c) :: cs := by
        simp [splitWhen, hc, hbrk]
      have hstep : bingeGo (e :: e' :: t) cur st =
          bingeGo (e' :: t) (cur + (e.duration : ℚ) / 60) st := by
        simp [bingeGo, hb]
      rw [hstep, bingeGo_eq (e' :: t) _ _, hsw, hc]
      have hm : cur + sessionMins (e :: e' :: c) =
          (cur + (e.duration : ℚ) / 60) + sessionMins (e' :: c) := by
        rw [sessionMins_cons]
        ring
      simp only [List.map_cons, List.foldl_cons, hm, sessionTitle_cons]

theorem bingeGo_eq_zero (eps : HistoryList) (st : BingeState) :
    bingeGo eps 0 st =
      ((splitWhen gapBreak eps).map
        (fun s => (sessionMins s, sessionTitle s))).foldl bingeStep st := by
  rw [bingeGo_eq]
  rcases hsw : splitWhen gapBreak eps with _ | ⟨s, ss⟩
  · simp
  · simp [zero_add]

/-- The whole binge computation is the fold of the comparison step over
all session summaries. -/
theorem bingeResult_eq (history : HistoryList) :
    bingeResult history =
      ((allSessions history).map
        (fun s => (sessionMins s, sessionTitle s))).foldl bingeStep
        { best := 0, showTitle := none } := by
  rw [bingeResult, allSessions]
  generalize numEntries (groupedByShow
    (history.filter (fun r => r.media_type = "episode"))) = L
  generalize ({ best := 0, showTitle := none } : BingeState) = st
  induction L generalizing st with
  | nil => simp
  | cons p L ih =>
    simp only [List.foldl_cons, List.map_cons, List.flatten_cons,
      List.map_append, List.foldl_append]
    rw [ih, bingeGo_eq_zero]

/-- The `best` component of the fold depends only on the running best. -/
theorem bingeFold_best (l : List (ℚ × String)) : ∀ (st : BingeState),
    (l.foldl bingeStep st).best =
      l.foldl (fun (b : ℤ) v => if (b : ℚ) < v.1 then jsRound v.1 else b)
        st.best := by
  induction l with
  | nil => intro st; rfl
  | cons v t ih =>
    intro st
    simp only [List.foldl_cons, ih]
    by_cases h : (st.best : ℚ) < v.1 <;> simp [bingeStep, h]

theorem jsRound_le_bound (M : ℚ) : (jsRound M : ℚ) ≤ M + 1/2 :=
  Int.floor_le (M + 1/2)

theorem jsRound_gt_bound (M : ℚ) : M + 1/2 < jsRound M + 1 :=
  Int.lt_floor_add_one (M + 1/2)

theorem jsRound_max_step (M m : ℚ) :
    (if (jsRound M : ℚ) < m then jsRound m else jsRound M) = jsRound (max M m) := by
  have h1 := jsRound_le_bound M
  have h2 := jsRound_gt_bound M
  rw [show jsRound M = ⌊M + 1/2⌋ from rfl] at h1 h2 ⊢
  by_cases h : ((⌊M + 1/2⌋ : ℤ) : ℚ) < m
  · rw [if_pos h]
    rcases le_total M m with hMm | hmM
    · rw [max_eq_right hMm]
    · rw [max_eq_left hmM]
      show jsRound m = ⌊M + 1/2⌋
      rw [jsRound, Int.floor_eq_iff]
      refine ⟨by linarith, by linarith⟩
  · rw [if_neg h]
    have hm' : m ≤ ((⌊M + 1/2⌋ : ℤ) : ℚ) := le_of_not_lt h
    rcases le_total M m with hMm | hmM
    · rw [max_eq_right hMm]
      show (⌊M + 1/2⌋ : ℤ) = jsRound m
      symm
      rw [jsRound, Int.floor_eq_iff]
      refine ⟨by linarith, by linarith⟩
    · rw [max_eq_left hmM]
      rfl

/-- Folding the JS comparison over session minutes computes the rounded
maximum. -/
theorem bingeFold_max (l : List ℚ) : ∀ M : ℚ,
    l.foldl (fun (b : ℤ) v => if (b : ℚ) < v then jsRound v else b)
        (jsRound M) =
      jsRound (l.foldl max M) := by
  induction l with
  | nil => intro M; rfl
  | cons v t ih =>
    intro M
    simp only [List.foldl_cons]
    rw [show (if ((jsRound M : ℤ) : ℚ) < v then jsRound v else jsRound M)
      = jsRound (max M v) from jsRound_max_step M v]
    exact ih (max M v)

/-- First boundary episode: show X, plays 0–1800. -/
def boundaryEp1 : TautulliHistoryRecord :=
  { baseEvent with
    media_type := "episode"
    rating_key := 10
    grandparent_rating_key := 1
    started := 0
    stopped := 1800
    duration := 1800
    grandparent_title := "X" }

/-- Second boundary episode, starting `g` seconds after the first stopped. -/
def boundaryEp2 (g : ℤ) : TautulliHistoryRecord :=
  { baseEvent with
    media_type := "episode"
    rating_key := 11
    grandparent_rating_key := 1
    started := 1800 + g
    stopped := 1800 + g + 1800
    duration := 1800
    grandparent_title := "X" }

/-- C4 (amended): `longestBingeMinutes` equals the rounded maximum of the
session totals, where sessions split exactly when the gap from one
episode's `stopped` to the next episode's `started` exceeds 3600 seconds —
so a 3600-second gap keeps one session and a 3601-second gap makes two,
as the concrete boundary instances show.  (The reported show title is the
one recorded by the running comparison and can belong to a non-maximal
session; see the counterexample.) -/
theorem claim_C4_binge_minutes (history : HistoryList) :
    (calculateViewingPatterns history).longestBingeMinutes =
      jsRound (((allSessions history).map sessionMins).foldl max 0) ∧
    allSessions [boundaryEp1, boundaryEp2 3600] =
      [[boundaryEp1, boundaryEp2 3600]] ∧
    allSessions [boundaryEp1, boundaryEp2 3601] =
      [[boundaryEp1], [boundaryEp2 3601]] := by
  refine ⟨?_, by decide, by decide⟩
  show (bingeResult history).best = _
  rw [bingeResult_eq, bingeFold_best]
  have h0 : ({ best := 0, showTitle := none } : BingeState).best = jsRound 0 := by
    show (0 : ℤ) = jsRound 0
    norm_num [jsRound]
  rw [h0]
  have key := bingeFold_max ((allSessions history).map sessionMins) 0
  rw [List.foldl_map] at key
  rw [List.foldl_map]
  exact key

/-- A lone Show A episode of 640 seconds (10 2/3 minutes, rounds to 11). -/
def showAEp : TautulliHistoryRecord :=
  { baseEvent with
    media_type := "episode"
    rating_key := 10
    grandparent_rating_key := 1
    started := 0
    stopped := 640
    duration := 640
    grandparent_title := "Show A" }

/-- A lone Show B episode of 650 seconds (10 5/6 minutes — the longer
session). -/
def showBEp : TautulliHistoryRecord :=
  { baseEvent with
    media_type := "episode"
    rating_key := 20
    grandparent_rating_key := 2
    started := 10000
    stopped := 10650
    duration := 650
    grandparent_title := "Show B" }

/-- C4 counterexample: Show B's session is strictly the longest, yet the
engine reports `longestBingeShow = "Show A"`: Show A's 10 2/3 minutes were
rounded up to 11 before Show B's exact 10 5/6 minutes were compared
against them. -/
theorem claim_C4_counterexample :
    (calculateViewingPatterns [showAEp, showBEp]).longestBingeShow =
      some "Show A" ∧
    allSessions [showAEp, showBEp] = [[showAEp], [showBEp]] ∧
    sessionMins [showAEp] < sessionMins [showBEp] := by
  refine ⟨?_, by decide, ?_⟩
  · show (bingeResult [showAEp, showBEp]).showTitle = some "Show A"
    have hgrp : numEntries (groupedByShow
        (([showAEp, showBEp] : HistoryList).filter
          (fun r => r.media_type = "episode"))) =
        [(1, [showAEp]), (2, [showBEp])] := by decide
    rw [bingeResult, hgrp]
    have hsA : sortByStarted [showAEp] = [showAEp] := by decide
    have hsB : sortByStarted [showBEp] = [showBEp] := by decide
    have hA : bingeGo [showAEp] 0 { best := 0, showTitle := none } =
        { best := 11, showTitle := some "Show A" } := by
      show (if ((0 : ℤ) : ℚ) < 0 + (showAEp.duration : ℚ) / 60 then
        ({ best := jsRound (0 + (showAEp.duration : ℚ) / 60),
           showTitle := some showAEp.grandparent_title } : BingeState)
        else { best := 0, showTitle := none }) = _
      rw [if_pos (by norm_num [showAEp, baseEvent])]
      have hr : jsRound (0 + (showAEp.duration : ℚ) / 60) = 11 := by
        norm_num [showAEp, baseEvent, jsRound]
      rw [hr]
      rfl
    have hB : bingeGo [showBEp] 0 { best := 11, showTitle := some "Show A" } =
        { best := 11, showTitle := some "Show A" } := by
      show (if ((11 : ℤ) : ℚ) < 0 + (showBEp.duration : ℚ) / 60 then
        ({ best := jsRound (0 + (showBEp.duration : ℚ) / 60),
           showTitle := some showBEp.grandparent_title } : BingeState)
        else { best := 11, showTitle := some "Show A" }) = _
      rw [if_neg (by norm_num [showBEp, baseEvent])]
    simp only [List.foldl_cons, List.foldl_nil, hsA, hsB, hA, hB]
  · show (0 : ℚ) + (showAEp.duration : ℚ) / 60 <
      (0 : ℚ) + (showBEp.duration : ℚ) / 60
    norm_num [showAEp, showBEp, baseEvent]

/-! ## C7 — genre percentages -/

/-- The flattened (genre, duration) stream the genre grouping processes. -/
def genreStream (history : HistoryList) : List (String × ℤ) :=
  history.flatMap (fun r => r.genres.map (fun g => (g, r.duration)))

/-- The per-item mutation of the genre accumulator. -/
def gStep (it : String × ℤ) (v : GenreAcc) : GenreAcc :=
  { count := v.count + 1, minutes := v.minutes + (it.2 : ℚ) / 60 }

theorem genreStats_eq_stream (history : HistoryList) :
    genreStats history =
      (genreStream history).foldl
        (fun m it => jsUpd m it.1 { count := 0, minutes := 0 } (gStep it)) [] := by
  rw [genreStats, genreStream]
  generalize ([] : List (String × GenreAcc)) = m
  induction history generalizing m with
  | nil => rfl
  | cons r t ih =>
    simp only [List.foldl_cons, List.flatMap_cons, List.foldl_append]
    rw [ih, List.foldl_map]
    rfl

/-- Minutes stored under a key, zero when absent. -/
def optMinutes (o : Option GenreAcc) : ℚ :=
  match o with
  | some v => v.minutes
  | none => 0

theorem genre_minutes_additive :
    ∀ (l : List (String × ℤ)) (m : List (String × GenreAcc)) (g : String),
      optMinutes (lookupA (l.foldl
          (fun m it => jsUpd m it.1 { count := 0, minutes := 0 } (gStep it)) m) g) =
        optMinutes (lookupA m g) +
          ((l.filter (fun it => decide (it.1 = g))).map
            (fun it => (it.2 : ℚ) / 60)).sum := by
  intro l
  induction l with
  | nil => intro m g; simp
  | cons it t ih =>
    intro m g
    simp only [List.foldl_cons, List.filter_cons]
    by_cases hk : it.1 = g
    · subst hk
      rw [ih]
      rw [lookupA_jsUpd_self]
      simp only [decide_True, if_true, List.map_cons, List.sum_cons]
      have : optMinutes (some (gStep it ((lookupA m it.1).getD
          { count := 0, minutes := 0 }))) =
          optMinutes (lookupA m it.1) + (it.2 : ℚ) / 60 := by
        rcases hl : lookupA m it.1 with _ | v <;> simp [optMinutes, gStep, hl]
      rw [this]
      ring
    · rw [ih, lookupA_jsUpd_other _ _ _ _ _ (fun h => hk h.symm)]
      simp [hk]

/-- Follows the spec's words (§4.4): a genre's minutes are the summed
minutes of the events carrying that genre. -/
def genreMinutes (history : HistoryList) (g : String) : ℚ :=
  ((history.filter (fun r => decide (g ∈ r.genres))).map
    (fun r => (r.duration : ℚ) / 60)).sum

theorem filter_eq_of_nodup {α : Type} [DecidableEq α] (l : List α) (g : α)
    (hnd : l.Nodup) :
    l.filter (fun x => decide (x = g)) = if g ∈ l then [g] else [] := by
  induction l with
  | nil => simp
  | cons x t ih =>
    rcases List.nodup_cons.mp hnd with ⟨hx, ht⟩
    rw [List.filter_cons]
    by_cases hxg : x = g
    · subst hxg
      rw [if_pos (by simp), ih ht, if_neg hx,
        if_pos (List.mem_cons_self x t)]
    · rw [if_neg (by simpa using hxg), ih ht]
      by_cases hg : g ∈ t
      · rw [if_pos hg, if_pos (List.mem_cons_of_mem x hg)]
      · have hgx : g ∉ x :: t := by
          intro hc
          rcases List.mem_cons.mp hc with h | h
          · exact hxg h.symm
          · exact hg h
        rw [if_neg hg, if_neg hgx]

theorem mapped_genre_sum (gs : List String) (d : ℤ) (g : String)
    (hnd : gs.Nodup) :
    (((gs.map (fun g' => (g', d))).filter (fun it => decide (it.1 = g))).map
      (fun it => (it.2 : ℚ) / 60)).sum = if g ∈ gs then (d : ℚ) / 60 else 0 := by
  induction gs with
  | nil => simp
  | cons x txs ih =>
    rcases List.nodup_cons.mp hnd with ⟨hx, ht⟩
    simp only [List.map_cons, List.filter_cons]
    by_cases hxg : x = g
    · subst hxg
      rw [if_pos (by simp), if_pos (List.mem_cons_self x txs)]
      simp only [List.map_cons, List.sum_cons]
      rw [ih ht, if_neg hx, add_zero]
    · rw [if_neg (by simpa using hxg), ih ht]
      by_cases hg : g ∈ txs
      · rw [if_pos hg, if_pos (List.mem_cons_of_mem x hg)]
      · have hgx : g ∉ x :: txs := by
          intro hc
          rcases List.mem_cons.mp hc with h | h
          · exact hxg h.symm
          · exact hg h
        rw [if_neg hg, if_neg hgx]

theorem genreStream_filter_sum (history : HistoryList) (g : String)
    (hnd : ∀ r ∈ history, r.genres.Nodup) :
    (((genreStream history).filter (fun it => decide (it.1 = g))).map
      (fun it => (it.2 : ℚ) / 60)).sum = genreMinutes history g := by
  induction history with
  | nil => simp [genreStream, genreMinutes]
  | cons r t ih =>
    have hr := hnd r (List.mem_cons_self _ _)
    have ht : ∀ x ∈ t, x.genres.Nodup :=
      fun x hx => hnd x (List.mem_cons_of_mem _ hx)
    simp only [genreStream, List.flatMap_cons, List.filter_append,
      List.map_append, List.sum_append, genreMinutes, List.filter_cons]
    rw [show (t.flatMap (fun r => r.genres.map (fun g => (g, r.duration))))
      = genreStream t from rfl]
    rw [ih ht, mapped_genre_sum r.genres r.duration g hr]
    by_cases hg : g ∈ r.genres
    · rw [if_pos hg, if_pos (by simpa using hg)]
      simp [genreMinutes]
    · rw [if_neg hg, if_neg (by simpa using hg)]
      simp [genreMinutes]

theorem sessionMins_eq_sum (s : HistoryList) :
    sessionMins s = (s.map (fun e => (e.duration : ℚ) / 60)).sum := by
  induction s with
  | nil => rfl
  | cons e t ih => rw [sessionMins_cons, ih, List.map_cons, List.sum_cons]

theorem totalMinutes_eq (history : HistoryList) :
    totalMinutesOf history =
      (history.map (fun e => (e.duration : ℚ) / 60)).sum :=
  sessionMins_eq_sum history

theorem sum_filter_le (history : HistoryList) (p : TautulliHistoryRecord → Bool)
    (hdur : ∀ r ∈ history, 0 ≤ r.duration) :
    ((history.filter p).map (fun e => (e.duration : ℚ) / 60)).sum ≤
      (history.map (fun e => (e.duration : ℚ) / 60)).sum := by
  induction history with
  | nil => simp
  | cons r t ih =>
    have hr : (0 : ℚ) ≤ (r.duration : ℚ) / 60 := by
      have := hdur r (List.mem_cons_self _ _)
      positivity
    have ht : ∀ x ∈ t, 0 ≤ x.duration :=
      fun x hx => hdur x (List.mem_cons_of_mem _ hx)
    rw [List.filter_cons]
    by_cases hp : p r
    · rw [if_pos hp]
      simp only [List.map_cons, List.sum_cons]
      exact add_le_add_left (ih ht) _
    · rw [if_neg hp]
      simp only [List.map_cons, List.sum_cons]
      calc ((t.filter p).map (fun e => (e.duration : ℚ) / 60)).sum
          ≤ (t.map (fun e => (e.duration : ℚ) / 60)).sum := ih ht
        _ ≤ _ := by linarith

theorem genreMinutes_nonneg (history : HistoryList) (g : String)
    (hdur : ∀ r ∈ history, 0 ≤ r.duration) :
    0 ≤ genreMinutes history g := by
  refine List.sum_nonneg ?_
  intro x hx
  rcases List.mem_map.mp hx with ⟨r, hr, rfl⟩
  have := hdur r (List.mem_filter.mp hr).1
  positivity

theorem jsRound_mono {a b : ℚ} (h : a ≤ b) : jsRound a ≤ jsRound b :=
  Int.floor_mono (by linarith)

theorem toFixed1_bounds (x : ℚ) (h0 : 0 ≤ x) (h100 : x ≤ 100) :
    0 ≤ toFixed1 x ∧ toFixed1 x ≤ 100 := by
  have hl : jsRound 0 ≤ jsRound (x * 10) := jsRound_mono (by linarith)
  have hu : jsRound (x * 10) ≤ jsRound 1000 := jsRound_mono (by linarith)
  have h0' : jsRound (0 : ℚ) = 0 := by norm_num [jsRound]
  have h1000 : jsRound (1000 : ℚ) = 1000 := by norm_num [jsRound]
  rw [h0'] at hl
  rw [h1000] at hu
  constructor
  · rw [toFixed1]
    have hc : (0 : ℚ) ≤ ((jsRound (x * 10) : ℤ) : ℚ) := by exact_mod_cast hl
    linarith
  · rw [toFixed1]
    have hc : ((jsRound (x * 10) : ℤ) : ℚ) ≤ 1000 := by exact_mod_cast hu
    linarith

/-- C7 (amended): with the data-model invariants (non-negative durations,
duplicate-free per-event genre lists), every reported genre percentage
equals that genre's summed minutes divided by the total minutes across all
events, times 100, rounded to one decimal, and lies in [0, 100].  The
percentages over all genres can exceed 100% in total, because an event
carrying several genres contributes its minutes to each of them (see the
counterexample). -/
theorem claim_C7_genre_percentages (history : HistoryList)
    (hdur : ∀ r ∈ history, 0 ≤ r.duration)
    (hnd : ∀ r ∈ history, r.genres.Nodup) :
    ∀ tg ∈ calculateTopGenres history,
      tg.percentage =
        toFixed1 (genreMinutes history tg.genre /
          totalMinutesOf history * 100) ∧
      0 ≤ tg.percentage ∧ tg.percentage ≤ 100 := by
  intro tg htg
  rcases List.mem_map.mp htg with ⟨p, hp, rfl⟩
  have hpg : p ∈ genreStats history := by
    have h1 : p ∈ jsSortBy (fun y x => decide (x.2.minutes < y.2.minutes))
        (strEntries (genreStats history)) := List.take_subset _ _ hp
    exact (mem_strEntries _ _).mp ((mem_jsSortBy _ _ _).mp h1)
  have hjs : genreStats history = jsGroup Prod.fst
      (fun _ => { count := 0, minutes := 0 }) gStep (genreStream history) :=
    genreStats_eq_stream history
  have hnodup : ((genreStats history).map Prod.fst).Nodup := by
    rw [hjs]
    exact jsGroup_keys_nodup _ _ _ _
  have hlk : lookupA (genreStats history) p.1 = some p.2 :=
    lookupA_eq_of_mem_nodup _ _ _ hnodup (by simpa using hpg)
  have hmins : p.2.minutes = genreMinutes history p.1 := by
    have hadd := genre_minutes_additive (genreStream history) [] p.1
    rw [show ((genreStream history).foldl
        (fun m it => jsUpd m it.1 { count := 0, minutes := 0 } (gStep it)) [])
      = genreStats history from (genreStats_eq_stream history).symm] at hadd
    rw [hlk] at hadd
    simp only [optMinutes, lookupA, zero_add] at hadd
    rw [hadd, genreStream_filter_sum history p.1 hnd]
  have hM0 : 0 ≤ genreMinutes history p.1 := genreMinutes_nonneg _ _ hdur
  have hMT : genreMinutes history p.1 ≤ totalMinutesOf history := by
    rw [totalMinutes_eq, genreMinutes]
    exact sum_filter_le history _ hdur
  have hx : 0 ≤ genreMinutes history p.1 / totalMinutesOf history * 100 ∧
      genreMinutes history p.1 / totalMinutesOf history * 100 ≤ 100 := by
    rcases lt_or_eq_of_le (le_trans hM0 hMT) with hT | hT
    · constructor
      · positivity
      · have h1 : genreMinutes history p.1 / totalMinutesOf history ≤ 1 :=
          (div_le_one hT).mpr hMT
        nlinarith
    · have hM : genreMinutes history p.1 = 0 := le_antisymm (hT ▸ hMT) hM0
      rw [hM]
      norm_num
  obtain ⟨hb0, hb100⟩ := toFixed1_bounds _ hx.1 hx.2
  refine ⟨?_, ?_, ?_⟩
  · show toFixed1 (p.2.minutes / totalMinutesOf history * 100) = _
    rw [hmins]
  · show 0 ≤ toFixed1 (p.2.minutes / totalMinutesOf history * 100)
    rw [hmins]
    exact hb0
  · show toFixed1 (p.2.minutes / totalMinutesOf history * 100) ≤ 100
    rw [hmins]
    exact hb100

/-- A one-hour event carrying two distinct genres. -/
def genreEvent : TautulliHistoryRecord :=
  { baseEvent with
    stopped := 3600
    duration := 3600
    genres := ["Action", "Drama"] }

theorem genreStats_genreEvent : genreStats [genreEvent] =
    [("Action", { count := 1, minutes := 60 }),
     ("Drama", { count := 1, minutes := 60 })] := by
  norm_num [genreStats, genreEvent, baseEvent, jsUpd]
  decide

theorem calcTopGenres_genreEvent : calculateTopGenres [genreEvent] =
    [{ genre := "Action", count := 1, minutes := 60, percentage := 100 },
     { genre := "Drama", count := 1, minutes := 60, percentage := 100 }] := by
  have hse : strEntries (genreStats [genreEvent]) = genreStats [genreEvent] := by
    rw [genreStats_genreEvent]
    exact strEntries_eq_self _ (by decide)
  have hsort : topGenresEntries [genreEvent] =
      [("Action", { count := 1, minutes := 60 }),
       ("Drama", { count := 1, minutes := 60 })] := by
    rw [topGenresEntries, hse, genreStats_genreEvent]
    rw [show jsSortBy (fun y x : String × GenreAcc =>
        decide (x.2.minutes < y.2.minutes))
        [("Action", { count := 1, minutes := 60 }),
         ("Drama", { count := 1, minutes := 60 })] =
      jsInsert (fun y x : String × GenreAcc =>
        decide (x.2.minutes < y.2.minutes))
        ("Action", { count := 1, minutes := 60 })
        [("Drama", { count := 1, minutes := 60 })] from rfl]
    rw [jsInsert, if_neg (by norm_num)]
    rfl
  have htot : totalMinutesOf [genreEvent] = 60 := by
    show (0 : ℚ) + (genreEvent.duration : ℚ) / 60 = 60
    norm_num [genreEvent, baseEvent]
  show (topGenresEntries [genreEvent]).map _ = _
  rw [hsort]
  simp only [List.map_cons, List.map_nil]
  have hpct : toFixed1 ((60 : ℚ) / totalMinutesOf [genreEvent] * 100) = 100 := by
    rw [htot]
    norm_num [toFixed1, jsRound]
  have hmin : jsRound (60 : ℚ) = 60 := by norm_num [jsRound]
  rw [hmin, hpct]

/-- C7 counterexample: a single one-hour event with genres Action and
Drama gives each genre 100.0%, so the percentages over all genres sum to
200 > 100, refuting the claimed `≤ 100%` bound on the sum. -/
theorem claim_C7_counterexample :
    ((calculateTopGenres [genreEvent]).map (fun g => g.percentage)).sum = 200 ∧
    totalMinutesOf [genreEvent] = 60 := by
  constructor
  · rw [calcTopGenres_genreEvent]
    norm_num
  · show (0 : ℚ) + (genreEvent.duration : ℚ) / 60 = 60
    norm_num [genreEvent, baseEvent]

/-- The first reported genre entry for `genreEvent`. -/
def genreTopA : TopGenre :=
  { genre := "Action", count := 1, minutes := 60, percentage := 100 }

/-- Witness instantiating `claim_C7_genre_percentages` at a concrete
history and its first reported genre. -/
theorem claim_C7_witness :
    genreTopA.percentage =
      toFixed1 (genreMinutes [genreEvent] genreTopA.genre /
        totalMinutesOf [genreEvent] * 100) ∧
    (0 : ℚ) ≤ genreTopA.percentage ∧ genreTopA.percentage ≤ 100 :=
  claim_C7_genre_percentages [genreEvent] (by decide) (by decide)
    genreTopA
    (by rw [calcTopGenres_genreEvent]; exact List.mem_cons_self _ _)

/-! ## C1 — top-N lists: length, order, tie-breaks -/

/-- Sorted top entries of a numeric-keyed grouping: descending by count,
ties in ascending key order (JS numeric-key enumeration), provided all
keys are genuine array indices. -/
theorem pairwise_topNumEntries {β : Type} (count : β → ℕ) (m : List (ℕ × β))
    (n : ℕ) (hk : ∀ p ∈ m, p.1 < 4294967295)
    (hnd : (m.map Prod.fst).Nodup) :
    ((byCountDesc count (numEntries m)).take n).Pairwise
      (fun a b => count b.2 < count a.2 ∨
        (count a.2 = count b.2 ∧ a.1 < b.1)) := by
  rw [byCountDesc, numEntries_eq_sorted _ hk]
  have hne' : m.Pairwise (fun p q => p.1 ≠ q.1) := List.pairwise_map.mp hnd
  have hasc := pairwise_jsSortBy_asc (fun p : ℕ × β => p.1)
    (fun p q => p.1 ≠ q.1) m hne'
  have hasc' : (jsSortBy (fun y x => decide (y.1 < x.1)) m).Pairwise
      (fun p q => p.1 < q.1) :=
    hasc.imp (fun h => h.elim id (fun h' => absurd h'.1 h'.2))
  have hdesc := pairwise_jsSortBy_desc (fun p : ℕ × β => count p.2)
    (fun p q => p.1 < q.1) _ hasc'
  exact hdesc.sublist (List.take_sublist _ _)

/-- Sorted top entries of a string-keyed grouping: descending by metric,
ties in first-encounter order of the key stream `S`, provided no key looks
like an array index. -/
theorem pairwise_topStrEntries {β M : Type} [LinearOrder M] (metric : β → M)
    (m : List (String × β)) (S : List String) (n : ℕ)
    (hfst : m.map Prod.fst = firstDedup S)
    (hidx : ∀ p ∈ m, ¬ isArrayIndex p.1) :
    ((jsSortBy (fun y x => decide (metric x.2 < metric y.2))
        (strEntries m)).take n).Pairwise
      (fun a b => metric b.2 < metric a.2 ∨
        (metric a.2 = metric b.2 ∧ S.indexOf a.1 < S.indexOf b.1)) := by
  rw [strEntries_eq_self _ hidx]
  have hpair : m.Pairwise
      (fun p q => S.indexOf p.1 < S.indexOf q.1) := by
    have h1 := pairwise_indexOf_firstDedup S
    rw [← hfst, List.pairwise_map] at h1
    exact h1
  have hdesc := pairwise_jsSortBy_desc (fun p : String × β => metric p.2)
    (fun p q => S.indexOf p.1 < S.indexOf q.1) m hpair
  exact hdesc.sublist (List.take_sublist _ _)

theorem jsGroup_key_prop {α κ β : Type} [DecidableEq κ] (key : α → κ)
    (init : α → β) (step : α → β → β) (l : List α) (P : κ → Prop)
    (h : ∀ r ∈ l, P (key r)) :
    ∀ p ∈ jsGroup key init step l, P p.1 := by
  intro p hp
  have h1 : p.1 ∈ (jsGroup key init step l).map Prod.fst :=
    List.mem_map_of_mem _ hp
  rw [jsGroup_fst] at h1
  rcases List.mem_map.mp ((mem_firstDedup _ _).mp h1) with ⟨r, hr, hrk⟩
  exact hrk ▸ h r hr

/-! Per-item streams for the nested (per-event inner loop) groupings, and
the proofs that the nested folds equal the flat stream folds. -/

/-- The per-item mutation of the person accumulator. -/
def pStep (it : String × String) (v : PersonAcc) : PersonAcc :=
  { count := v.count + 1
    titles := if it.2 ∈ v.titles then v.titles else v.titles ++ [it.2] }

/-- The flattened (name, title) stream of a person grouping. -/
def personStream (select : TautulliHistoryRecord → List String)
    (history : HistoryList) : List (String × String) :=
  history.flatMap (fun r => (select r).map (fun nm => (nm, r.title)))

theorem personCounts_eq_stream (select : TautulliHistoryRecord → List String)
    (history : HistoryList) :
    personCounts select history =
      (personStream select history).foldl
        (fun m it => jsUpd m it.1 { count := 0, titles := [] } (pStep it)) [] := by
  rw [personCounts, personStream]
  generalize ([] : List (String × PersonAcc)) = m
  induction history generalizing m with
  | nil => rfl
  | cons r t ih =>
    simp only [List.foldl_cons, List.flatMap_cons, List.foldl_append]
    rw [ih, List.foldl_map]
    rfl

theorem devFold_devices : ∀ (history : HistoryList) (st : DevState),
    (history.foldl devStep st).devices =
      history.foldl (fun m r => jsUpd m (deviceKey r)
        { plays := 0, minutes := 0, platform := r.platform }
        (fun v => { v with
          plays := v.plays + 1
          minutes := v.minutes + (r.duration : ℚ) / 60 })) st.devices
  | [], _ => rfl
  | r :: t, st => by
    simp only [List.foldl_cons]
    rw [devFold_devices t (devStep st r)]
    rfl

theorem devFold_platforms : ∀ (history : HistoryList) (st : DevState),
    (history.foldl devStep st).platforms =
      history.foldl (fun m r => jsUpd m r.platform
        { plays := 0, minutes := 0 }
        (fun v => { plays := v.plays + 1
                    minutes := v.minutes + (r.duration : ℚ) / 60 })) st.platforms
  | [], _ => rfl
  | r :: t, st => by
    simp only [List.foldl_cons]
    rw [devFold_platforms t (devStep st r)]
    rfl

theorem topMovies_spec (history : HistoryList)
    (hk : ∀ r ∈ history, r.rating_key < 4294967295) :
    (topMovies history).length ≤ 10 ∧
    (topMovies history).Pairwise (fun a b => b.plays ≤ a.plays) ∧
    (topMoviesEntries history).Pairwise
      (fun a b => b.2.count < a.2.count ∨
        (a.2.count = b.2.count ∧ a.1 < b.1)) := by
  have hkm : ∀ p ∈ moviePlays history, p.1 < 4294967295 :=
    jsGroup_key_prop _ _ _ _ (fun k => k < 4294967295)
      (fun r hr => hk r (List.mem_of_mem_filter hr))
  have hnd : ((moviePlays history).map Prod.fst).Nodup :=
    jsGroup_keys_nodup _ _ _ _
  have hpw := pairwise_topNumEntries MovieAcc.count (moviePlays history) 10
    hkm hnd
  refine ⟨?_, ?_, hpw⟩
  · rw [topMovies, List.length_map]
    exact List.length_take_le _ _
  · rw [topMovies]
    refine List.pairwise_map.mpr (hpw.imp ?_)
    intro a b hab
    rcases hab with h | ⟨h, _⟩
    · exact le_of_lt h
    · exact le_of_eq h.symm

theorem topShows_spec (history : HistoryList)
    (hk : ∀ r ∈ history, r.grandparent_rating_key < 4294967295) :
    (topShows history).length ≤ 10 ∧
    (topShows history).Pairwise (fun a b => b.plays ≤ a.plays) ∧
    (topShowsEntries history).Pairwise
      (fun a b => b.2.count < a.2.count ∨
        (a.2.count = b.2.count ∧ a.1 < b.1)) := by
  have hkm : ∀ p ∈ showPlays history, p.1 < 4294967295 :=
    jsGroup_key_prop _ _ _ _ (fun k => k < 4294967295)
      (fun r hr => hk r (List.mem_of_mem_filter hr))
  have hnd : ((showPlays history).map Prod.fst).Nodup :=
    jsGroup_keys_nodup _ _ _ _
  have hpw := pairwise_topNumEntries ShowAcc.count (showPlays history) 10
    hkm hnd
  refine ⟨?_, ?_, hpw⟩
  · rw [topShows, List.length_map]
    exact List.length_take_le _ _
  · rw [topShows]
    refine List.pairwise_map.mpr (hpw.imp ?_)
    intro a b hab
    rcases hab with h | ⟨h, _⟩
    · exact le_of_lt h
    · exact le_of_eq h.symm

theorem topEpisodes_spec (history : HistoryList)
    (hk : ∀ r ∈ history, r.rating_key < 4294967295) :
    (topEpisodes history).length ≤ 5 ∧
    (topEpisodes history).Pairwise (fun a b => b.plays ≤ a.plays) ∧
    (topEpisodesEntries history).Pairwise
      (fun a b => b.2.count < a.2.count ∨
        (a.2.count = b.2.count ∧ a.1 < b.1)) := by
  have hkm : ∀ p ∈ episodePlays history, p.1 < 4294967295 :=
    jsGroup_key_prop _ _ _ _ (fun k => k < 4294967295)
      (fun r hr => hk r (List.mem_of_mem_filter hr))
  have hnd : ((episodePlays history).map Prod.fst).Nodup :=
    jsGroup_keys_nodup _ _ _ _
  have hpw := pairwise_topNumEntries EpisodeAcc.count (episodePlays history) 5
    hkm hnd
  refine ⟨?_, ?_, hpw⟩
  · rw [topEpisodes, List.length_map]
    exact List.length_take_le _ _
  · rw [topEpisodes]
    refine List.pairwise_map.mpr (hpw.imp ?_)
    intro a b hab
    rcases hab with h | ⟨h, _⟩
    · exact le_of_lt h
    · exact le_of_eq h.symm

theorem topGenres_spec (history : HistoryList)
    (hg : ∀ r ∈ history, ∀ g ∈ r.genres, ¬ isArrayIndex g) :
    (calculateTopGenres history).length ≤ 10 ∧
    (calculateTopGenres history).Pairwise (fun a b => b.minutes ≤ a.minutes) ∧
    (topGenresEntries history).Pairwise
      (fun a b => b.2.minutes < a.2.minutes ∨
        (a.2.minutes = b.2.minutes ∧
          ((genreStream history).map Prod.fst).indexOf a.1 <
            ((genreStream history).map Prod.fst).indexOf b.1)) := by
  have hjs : genreStats history = jsGroup Prod.fst
      (fun _ => { count := 0, minutes := 0 }) gStep (genreStream history) :=
    genreStats_eq_stream history
  have hfst : (genreStats history).map Prod.fst =
      firstDedup ((genreStream history).map Prod.fst) := by
    rw [hjs]
    exact jsGroup_fst _ _ _ _
  have hidx : ∀ p ∈ genreStats history, ¬ isArrayIndex p.1 := by
    intro p hp
    have h1 : p.1 ∈ (genreStats history).map Prod.fst :=
      List.mem_map_of_mem _ hp
    rw [hfst] at h1
    rcases List.mem_map.mp ((mem_firstDedup _ _).mp h1) with ⟨it, hit, hitk⟩
    rcases List.mem_flatMap.mp hit with ⟨r, hr, hmem⟩
    rcases List.mem_map.mp hmem with ⟨g, hgmem, rfl⟩
    exact hitk ▸ hg r hr g hgmem
  have hpw := pairwise_topStrEntries (fun acc : GenreAcc => acc.minutes)
    (genreStats history) ((genreStream history).map Prod.fst) 10 hfst hidx
  refine ⟨?_, ?_, hpw⟩
  · show ((topGenresEntries history).map _).length ≤ 10
    rw [List.length_map]
    exact List.length_take_le _ _
  · show ((topGenresEntries history).map _).Pairwise _
    refine List.pairwise_map.mpr (hpw.imp ?_)
    intro a b hab
    show jsRound b.2.minutes ≤ jsRound a.2.minutes
    rcases hab with h | ⟨h, _⟩
    · exact jsRound_mono (le_of_lt h)
    · exact jsRound_mono (le_of_eq h.symm)

theorem topPeople_spec (select : TautulliHistoryRecord → List String)
    (history : HistoryList)
    (hs : ∀ r ∈ history, ∀ nm ∈ select r, ¬ isArrayIndex nm) :
    (mkTopPeople (topPeopleEntries select history)).length ≤ 5 ∧
    (mkTopPeople (topPeopleEntries select history)).Pairwise
      (fun a b => b.count ≤ a.count) ∧
    (topPeopleEntries select history).Pairwise
      (fun a b => b.2.count < a.2.count ∨
        (a.2.count = b.2.count ∧
          ((personStream select history).map Prod.fst).indexOf a.1 <
            ((personStream select history).map Prod.fst).indexOf b.1)) := by
  have hjs : personCounts select history = jsGroup Prod.fst
      (fun _ => { count := 0, titles := [] }) pStep
      (personStream select history) :=
    personCounts_eq_stream select history
  have hfst : (personCounts select history).map Prod.fst =
      firstDedup ((personStream select history).map Prod.fst) := by
    rw [hjs]
    exact jsGroup_fst _ _ _ _
  have hidx : ∀ p ∈ personCounts select history, ¬ isArrayIndex p.1 := by
    intro p hp
    have h1 : p.1 ∈ (personCounts select history).map Prod.fst :=
      List.mem_map_of_mem _ hp
    rw [hfst] at h1
    rcases List.mem_map.mp ((mem_firstDedup _ _).mp h1) with ⟨it, hit, hitk⟩
    rcases List.mem_flatMap.mp hit with ⟨r, hr, hmem⟩
    rcases List.mem_map.mp hmem with ⟨nm, hnmem, rfl⟩
    exact hitk ▸ hs r hr nm hnmem
  have hpw := pairwise_topStrEntries (fun acc : PersonAcc => acc.count)
    (personCounts select history)
    ((personStream select history).map Prod.fst) 5 hfst hidx
  refine ⟨?_, ?_, hpw⟩
  · rw [mkTopPeople, List.length_map]
    exact List.length_take_le _ _
  · rw [mkTopPeople]
    refine List.pairwise_map.mpr (hpw.imp ?_)
    intro a b hab
    rcases hab with h | ⟨h, _⟩
    · exact le_of_lt h
    · exact le_of_eq h.symm

theorem topDevices_spec (history : HistoryList)
    (hs : ∀ r ∈ history, ¬ isArrayIndex (deviceKey r)) :
    (topDevices history).length ≤ 5 ∧
    (topDevices history).Pairwise (fun a b => b.plays ≤ a.plays) ∧
    (topDevicesEntries history).Pairwise
      (fun a b => b.2.plays < a.2.plays ∨
        (a.2.plays = b.2.plays ∧
          (history.map deviceKey).indexOf a.1 <
            (history.map deviceKey).indexOf b.1)) := by
  have hjs : (devFold history).devices = jsGroup deviceKey
      (fun r => { plays := 0, minutes := 0, platform := r.platform })
      (fun r v => { v with
        plays := v.plays + 1
        minutes := v.minutes + (r.duration : ℚ) / 60 }) history := by
    rw [devFold, devFold_devices]
    rfl
  have hfst : ((devFold history).devices).map Prod.fst =
      firstDedup (history.map deviceKey) := by
    rw [hjs]
    exact jsGroup_fst _ _ _ _
  have hidx : ∀ p ∈ (devFold history).devices, ¬ isArrayIndex p.1 := by
    intro p hp
    have h1 : p.1 ∈ ((devFold history).devices).map Prod.fst :=
      List.mem_map_of_mem _ hp
    rw [hfst] at h1
    rcases List.mem_map.mp ((mem_firstDedup _ _).mp h1) with ⟨r, hr, hk⟩
    exact hk ▸ hs r hr
  have hpw := pairwise_topStrEntries (fun acc : DevAcc => acc.plays)
    ((devFold history).devices) (history.map deviceKey) 5 hfst hidx
  refine ⟨?_, ?_, hpw⟩
  · rw [topDevices, List.length_map]
    exact List.length_take_le _ _
  · rw [topDevices]
    refine List.pairwise_map.mpr (hpw.imp ?_)
    intro a b hab
    rcases hab with h | ⟨h, _⟩
    · exact le_of_lt h
    · exact le_of_eq h.symm

theorem topPlatforms_spec (history : HistoryList)
    (hs : ∀ r ∈ history, ¬ isArrayIndex r.platform) :
    (topPlatforms history).length ≤ 5 ∧
    (topPlatforms history).Pairwise (fun a b => b.plays ≤ a.plays) ∧
    (topPlatformsEntries history).Pairwise
      (fun a b => b.2.plays < a.2.plays ∨
        (a.2.plays = b.2.plays ∧
          (history.map (fun r => r.platform)).indexOf a.1 <
            (history.map (fun r => r.platform)).indexOf b.1)) := by
  have hjs : (devFold history).platforms = jsGroup
      (fun r => r.platform)
      (fun _ => { plays := 0, minutes := 0 })
      (fun r v => { plays := v.plays + 1
                    minutes := v.minutes + (r.duration : ℚ) / 60 }) history := by
    rw [devFold, devFold_platforms]
    rfl
  have hfst : ((devFold history).platforms).map Prod.fst =
      firstDedup (history.map (fun r => r.platform)) := by
    rw [hjs]
    exact jsGroup_fst _ _ _ _
  have hidx : ∀ p ∈ (devFold history).platforms, ¬ isArrayIndex p.1 := by
    intro p hp
    have h1 : p.1 ∈ ((devFold history).platforms).map Prod.fst :=
      List.mem_map_of_mem _ hp
    rw [hfst] at h1
    rcases List.mem_map.mp ((mem_firstDedup _ _).mp h1) with ⟨r, hr, hk⟩
    exact hk ▸ hs r hr
  have hpw := pairwise_topStrEntries (fun acc : PlatAcc => acc.plays)
    ((devFold history).platforms) (history.map (fun r => r.platform)) 5
    hfst hidx
  refine ⟨?_, ?_, hpw⟩
  · rw [topPlatforms, List.length_map]
    exact List.length_take_le _ _
  · rw [topPlatforms]
    refine List.pairwise_map.mpr (hpw.imp ?_)
    intro a b hab
    rcases hab with h | ⟨h, _⟩
    · exact le_of_lt h
    · exact le_of_eq h.symm

/-- C1 (amended): every top-N list has length at most N (movies/shows 10,
episodes 5, genres 10, actors/directors 5, devices/platforms 5) and is
sorted by its stated metric in non-increasing order.  Ties preserve the
order of first encounter for the string-keyed dimensions (genres, actors,
directors, devices, platforms — given no key resembles a numeric array
index), but for the numerically keyed movie, show and episode lists ties
come out in ascending rating-key order (JS objects enumerate integer-like
keys ascending), not in first-encounter order. -/
theorem claim_C1_topN_lists (history : HistoryList)
    (hk : ∀ r ∈ history, r.rating_key < 4294967295 ∧
      r.grandparent_rating_key < 4294967295)
    (hs : ∀ r ∈ history,
      (∀ g ∈ r.genres, ¬ isArrayIndex g) ∧
      (∀ a ∈ r.actors, ¬ isArrayIndex a) ∧
      (∀ d ∈ r.directors, ¬ isArrayIndex d) ∧
      ¬ isArrayIndex (deviceKey r) ∧ ¬ isArrayIndex r.platform) :
    ((topMovies history).length ≤ 10 ∧
      (topMovies history).Pairwise (fun a b => b.plays ≤ a.plays) ∧
      (topMoviesEntries history).Pairwise
        (fun a b => b.2.count < a.2.count ∨
          (a.2.count = b.2.count ∧ a.1 < b.1))) ∧
    ((topShows history).length ≤ 10 ∧
      (topShows history).Pairwise (fun a b => b.plays ≤ a.plays) ∧
      (topShowsEntries history).Pairwise
        (fun a b => b.2.count < a.2.count ∨
          (a.2.count = b.2.count ∧ a.1 < b.1))) ∧
    ((topEpisodes history).length ≤ 5 ∧
      (topEpisodes history).Pairwise (fun a b => b.plays ≤ a.plays) ∧
      (topEpisodesEntries history).Pairwise
        (fun a b => b.2.count < a.2.count ∨
          (a.2.count = b.2.count ∧ a.1 < b.1))) ∧
    ((calculateTopGenres history).length ≤ 10 ∧
      (calculateTopGenres history).Pairwise
        (fun a b => b.minutes ≤ a.minutes) ∧
      (topGenresEntries history).Pairwise
        (fun a b => b.2.minutes < a.2.minutes ∨
          (a.2.minutes = b.2.minutes ∧
            ((genreStream history).map Prod.fst).indexOf a.1 <
              ((genreStream history).map Prod.fst).indexOf b.1))) ∧
    ((topActors history).length ≤ 5 ∧
      (topActors history).Pairwise (fun a b => b.count ≤ a.count) ∧
      (topPeopleEntries (fun r => r.actors) history).Pairwise
        (fun a b => b.2.count < a.2.count ∨
          (a.2.count = b.2.count ∧
            ((personStream (fun r => r.actors) history).map
              Prod.fst).indexOf a.1 <
              ((personStream (fun r => r.actors) history).map
                Prod.fst).indexOf b.1))) ∧
    ((topDirectors history).length ≤ 5 ∧
      (topDirectors history).Pairwise (fun a b => b.count ≤ a.count) ∧
      (topPeopleEntries (fun r => r.directors) history).Pairwise
        (fun a b => b.2.count < a.2.count ∨
          (a.2.count = b.2.count ∧
            ((personStream (fun r => r.directors) history).map
              Prod.fst).indexOf a.1 <
              ((personStream (fun r => r.directors) history).map
                Prod.fst).indexOf b.1))) ∧
    ((topDevices history).length ≤ 5 ∧
      (topDevices history).Pairwise (fun a b => b.plays ≤ a.plays) ∧
      (topDevicesEntries history).Pairwise
        (fun a b => b.2.plays < a.2.plays ∨
          (a.2.plays = b.2.plays ∧
            (history.map deviceKey).indexOf a.1 <
              (history.map deviceKey).indexOf b.1))) ∧
    ((topPlatforms history).length ≤ 5 ∧
      (topPlatforms history).Pairwise (fun a b => b.plays ≤ a.plays) ∧
      (topPlatformsEntries history).Pairwise
        (fun a b => b.2.plays < a.2.plays ∨
          (a.2.plays = b.2.plays ∧
            (history.map (fun r => r.platform)).indexOf a.1 <
              (history.map (fun r => r.platform)).indexOf b.1))) :=
  ⟨topMovies_spec history (fun r hr => (hk r hr).1),
   topShows_spec history (fun r hr => (hk r hr).2),
   topEpisodes_spec history (fun r hr => (hk r hr).1),
   topGenres_spec history (fun r hr => (hs r hr).1),
   topPeople_spec (fun r => r.actors) history (fun r hr => (hs r hr).2.1),
   topPeople_spec (fun r => r.directors) history
     (fun r hr => (hs r hr).2.2.1),
   topDevices_spec history (fun r hr => (hs r hr).2.2.2.1),
   topPlatforms_spec history (fun r hr => (hs r hr).2.2.2.2)⟩

/-- A movie event with a given rating key and start time. -/
def movieEvent (k : ℕ) (s : ℤ) : TautulliHistoryRecord :=
  { baseEvent with rating_key := k, started := s }

/-- C1 counterexample: two movies with equal play counts, rating key 5
encountered before rating key 3, come out as `[3, 5]` — ascending
rating-key order, not the claimed first-encounter order `[5, 3]`. -/
theorem claim_C1_counterexample :
    ((topMovies [movieEvent 5 0, movieEvent 3 100]).map
      (fun m => m.ratingKey)) = [3, 5] ∧
    ((topMovies [movieEvent 5 0, movieEvent 3 100]).map
      (fun m => m.plays)) = [1, 1] ∧
    ([movieEvent 5 0, movieEvent 3 100].map (fun r => r.rating_key)) =
      [5, 3] := by
  refine ⟨by decide, by decide, by decide⟩

/-- Witness instantiating `claim_C1_topN_lists` at a concrete history. -/
theorem claim_C1_witness :
    (topMovies [movieEvent 5 0, movieEvent 3 100]).length ≤ 10 :=
  (claim_C1_topN_lists [movieEvent 5 0, movieEvent 3 100]
    (by decide) (by decide)).1.1

end PlexUnwrapped
